import Mathlib

/-!
Shallow embedding of the workflow execution engine of the
`multi-agent-orchestration` repository, translated from
`src/services/workflow_service/workflow_engine.py` and
`src/services/workflow_service/models.py`, together with theorems settling
the behavioural claims about it.

Modelling conventions:
* Python runtime values that can appear in a workflow `context` dictionary are
  modelled by the inductive type `Value` (`None`, `bool`, `int`, `float`,
  `str`, `list`, `dict`).  Python floats are modelled as exact rationals plus
  `inf`/`-inf`/`nan`; the decimal rendering of floats is a best-effort model
  (no claim depends on float formatting).
* Python dictionaries are modelled as insertion-ordered association lists
  with unique keys; `ctxSet` updates an existing key in place (as CPython
  dict assignment does) and appends new keys.
* `datetime.utcnow()` is modelled as a monotone tick counter in the engine
  state, so "records a timestamp" is observable as `Option Nat`.
* The agent service (`_call_agent`, an external HTTP collaborator that by
  contract never raises and always returns a response dictionary) is
  modelled as an oracle `Nat → AgentResponse` indexed by the number of
  calls made so far; every call is logged in the engine state.
* The cooperative pause/resume wait (`while execution_id in
  self.paused_executions: await asyncio.sleep(1)`) is a pure busy-wait that
  changes no state; the sequential embedding models runs that are never
  paused (none of the claims concerns pausing).
* `asyncio.sleep` backoffs are modelled by logging the slept duration.
-/

/-- Python float values: a finite float (modelled as an exact rational),
signed infinity, or `nan`. -/
inductive FloatVal where
  | finite (q : ℚ) : FloatVal
  | inf (pos : Bool) : FloatVal
  | nan : FloatVal
  deriving DecidableEq, Repr

/-- Python runtime values that can appear in a workflow context. -/
inductive Value where
  | none : Value
  | bool (b : Bool) : Value
  | int (n : ℤ) : Value
  | float (f : FloatVal) : Value
  | str (s : String) : Value
  | list (xs : List Value) : Value
  | dict (xs : List (String × Value)) : Value
  deriving Repr

/-- A workflow context / Python dict with string keys. -/
abbrev Context := List (String × Value)

mutual

/-- Structural (Lean-level) boolean equality on `Value`. -/
def Value.beq : Value → Value → Bool
  | .none, .none => true
  | .bool a, .bool b => a == b
  | .int a, .int b => a == b
  | .float a, .float b => a == b
  | .str a, .str b => a == b
  | .list a, .list b => Value.beqList a b
  | .dict a, .dict b => Value.beqDict a b
  | _, _ => false

def Value.beqList : List Value → List Value → Bool
  | [], [] => true
  | a :: as, b :: bs => Value.beq a b && Value.beqList as bs
  | _, _ => false

def Value.beqDict : List (String × Value) → List (String × Value) → Bool
  | [], [] => true
  | (k1, v1) :: as, (k2, v2) :: bs => k1 == k2 && Value.beq v1 v2 && Value.beqDict as bs
  | _, _ => false

end

mutual

theorem Value.beq_eq : ∀ a b : Value, Value.beq a b = true → a = b
  | .none, .none, _ => rfl
  | .bool _, .bool _, h => by simp [Value.beq] at h; simp [h]
  | .int _, .int _, h => by simp [Value.beq] at h; simp [h]
  | .float _, .float _, h => by simp [Value.beq] at h; simp [h]
  | .str _, .str _, h => by simp [Value.beq] at h; simp [h]
  | .list a, .list b, h => by
      simp only [Value.beq] at h
      exact congrArg Value.list (Value.beqList_eq a b h)
  | .dict a, .dict b, h => by
      simp only [Value.beq] at h
      exact congrArg Value.dict (Value.beqDict_eq a b h)

theorem Value.beqList_eq : ∀ a b : List Value, Value.beqList a b = true → a = b
  | [], [], _ => rfl
  | a :: as, b :: bs, h => by
      simp only [Value.beqList, Bool.and_eq_true] at h
      rw [Value.beq_eq a b h.1, Value.beqList_eq as bs h.2]

theorem Value.beqDict_eq : ∀ a b : List (String × Value), Value.beqDict a b = true → a = b
  | [], [], _ => rfl
  | (k1, v1) :: as, (k2, v2) :: bs, h => by
      simp only [Value.beqDict, Bool.and_eq_true, beq_iff_eq] at h
      rw [h.1.1, Value.beq_eq v1 v2 h.1.2, Value.beqDict_eq as bs h.2]

end

mutual

theorem Value.beq_refl : ∀ a : Value, Value.beq a a = true
  | .none => rfl
  | .bool _ => by simp [Value.beq]
  | .int _ => by simp [Value.beq]
  | .float _ => by simp [Value.beq]
  | .str _ => by simp [Value.beq]
  | .list a => by simp only [Value.beq]; exact Value.beqList_refl a
  | .dict a => by simp only [Value.beq]; exact Value.beqDict_refl a

theorem Value.beqList_refl : ∀ a : List Value, Value.beqList a a = true
  | [] => rfl
  | a :: as => by
      simp only [Value.beqList, Bool.and_eq_true]
      exact ⟨Value.beq_refl a, Value.beqList_refl as⟩

theorem Value.beqDict_refl : ∀ a : List (String × Value), Value.beqDict a a = true
  | [] => rfl
  | (_, v) :: as => by
      simp only [Value.beqDict, Bool.and_eq_true, beq_self_eq_true, true_and]
      exact ⟨Value.beq_refl v, Value.beqDict_refl as⟩

end

instance : DecidableEq Value := fun a b =>
  if h : Value.beq a b = true then
    Decidable.isTrue (Value.beq_eq a b h)
  else
    Decidable.isFalse (fun he => h (he ▸ Value.beq_refl a))

/-- Python truthiness (`bool(x)`): `None`, `False`, numeric zero, and empty
strings/lists/dicts are falsy. -/
def pyTruthy : Value → Bool
  | .none => false
  | .bool b => b
  | .int n => n != 0
  | .float f => match f with | .finite q => q != 0 | _ => true
  | .str s => s != ""
  | .list xs => !xs.isEmpty
  | .dict xs => !xs.isEmpty

/-- View a Python value as a number, as Python's numeric protocol does for
`==` comparisons: `bool` is a subtype of `int`, which embeds into `float`. -/
def toNum? : Value → Option FloatVal
  | .bool b => some (.finite (if b then 1 else 0))
  | .int n => some (.finite (n : ℚ))
  | .float f => some f
  | _ => Option.none

/-- Numeric equality of Python numbers; `nan` is not equal to anything,
including itself. -/
def pyNumEq : FloatVal → FloatVal → Bool
  | .finite a, .finite b => a == b
  | .inf a, .inf b => a == b
  | .nan, _ => false
  | _, .nan => false
  | _, _ => false

/-- First-match lookup in an association-list dictionary (`d.get(key)` /
`d[key]`; keys are unique in any dict produced by `ctxSet`). -/
def ctxGet : Context → String → Option Value
  | [], _ => Option.none
  | (k, v) :: rest, key => if k == key then some v else ctxGet rest key

/-- CPython dict assignment `d[key] = val`: overwrite an existing key in
place (preserving insertion order), else append. -/
def ctxSet : Context → String → Value → Context
  | [], key, val => [(key, val)]
  | (k, v) :: rest, key, val =>
      if k == key then (k, val) :: rest else (k, v) :: ctxSet rest key val

/-- CPython `dst.update(src)`: assign every key of `src` in iteration
order. -/
def ctxUpdate (dst src : Context) : Context :=
  src.foldl (fun acc kv => ctxSet acc kv.1 kv.2) dst

mutual

/-- Python `==` between context values: numbers compare numerically across
`bool`/`int`/`float`, strings by content, lists pointwise, dicts by key set
and per-key value equality (dict keys are unique), everything else is
cross-type unequal. -/
def pyEq (a b : Value) : Bool :=
  match a, b with
  | .str x, .str y => x == y
  | .none, .none => true
  | .list x, .list y => pyEqList x y
  | .dict x, .dict y => (x.length == y.length) && pyEqDict x y
  | x, y =>
      match toNum? x, toNum? y with
      | some m, some n => pyNumEq m n
      | _, _ => false

def pyEqList : List Value → List Value → Bool
  | [], [] => true
  | x :: xs, y :: ys => pyEq x y && pyEqList xs ys
  | _, _ => false

def pyEqDict : List (String × Value) → Context → Bool
  | [], _ => true
  | (k, v) :: rest, ys =>
      (match ctxGet ys k with
       | some w => pyEq v w
       | Option.none => false) && pyEqDict rest ys

end

/-- Characters Python's `str.strip()` / `str.split()` treat as whitespace
(ASCII fragment). -/
def isPyWhitespace (c : Char) : Bool :=
  c == ' ' || c == '\t' || c == '\n' || c == '\r' || c == '\x0b' || c == '\x0c'

/-- Python `str.strip()` with no arguments. -/
def pyStrip (s : String) : String :=
  String.mk (((s.toList.dropWhile isPyWhitespace).reverse.dropWhile isPyWhitespace).reverse)

def pySplitWsGo : List Char → List Char → List String
  | [], acc => if acc.isEmpty then [] else [String.mk acc.reverse]
  | c :: cs, acc =>
      if isPyWhitespace c then
        if acc.isEmpty then pySplitWsGo cs []
        else String.mk acc.reverse :: pySplitWsGo cs []
      else pySplitWsGo cs (c :: acc)

/-- Python `str.split()` with no arguments: split on whitespace runs,
dropping empty fields. -/
def pySplitWs (s : String) : List String := pySplitWsGo s.toList []

def listStartsWith : List Char → List Char → Bool
  | [], _ => true
  | _ :: _, [] => false
  | a :: as, b :: bs => a == b && listStartsWith as bs

def hasSubList (needle hay : List Char) : Bool :=
  match hay with
  | [] => needle.isEmpty
  | _ :: t => listStartsWith needle hay || hasSubList needle t

/-- Python substring test `sub in s`. -/
def containsSubstr (s sub : String) : Bool := hasSubList sub.toList s.toList

/-- Python `s.isdigit()` (ASCII fragment): non-empty and all digits. -/
def pyIsDigit (s : String) : Bool := !s.toList.isEmpty && s.toList.all Char.isDigit

def digitsToNat (l : List Char) : ℕ :=
  l.foldl (fun n c => n * 10 + (c.toNat - '0'.toNat)) 0

/-- Python `float(s)` string parsing: optional surrounding whitespace, an
optional sign, then `inf`/`infinity`/`nan` (case-insensitive) or a decimal
mantissa with optional fraction and exponent.  Underscore digit separators
are not modelled (no claim exercises them). -/
def pyParseFloat (s : String) : Option FloatVal :=
  let l0 := s.toList.dropWhile isPyWhitespace
  let l1 := (l0.reverse.dropWhile isPyWhitespace).reverse
  let sign : Bool := match l1 with
    | '+' :: _ => true
    | '-' :: _ => false
    | _ => true
  let l : List Char := match l1 with
    | '+' :: rest => rest
    | '-' :: rest => rest
    | _ => l1
  let lower := l.map Char.toLower
  if lower = "inf".toList || lower = "infinity".toList then some (.inf sign)
  else if lower = "nan".toList then some FloatVal.nan
  else
    let intPart := l.takeWhile Char.isDigit
    let r1 := l.dropWhile Char.isDigit
    let fracPart : List Char := match r1 with
      | '.' :: rr => rr.takeWhile Char.isDigit
      | _ => []
    let r2 : List Char := match r1 with
      | '.' :: rr => rr.dropWhile Char.isDigit
      | _ => r1
    if intPart.isEmpty && fracPart.isEmpty then Option.none
    else
      let mantNat : ℤ := (digitsToNat (intPart ++ fracPart) : ℤ)
      let mant : ℤ := if sign then mantNat else -mantNat
      let base : ℚ := (mant : ℚ) / (10 : ℚ) ^ fracPart.length
      match r2 with
      | [] => some (.finite base)
      | e :: r3 =>
          if e == 'e' || e == 'E' then
            let epos : Bool := match r3 with
              | '-' :: _ => false
              | _ => true
            let r4 : List Char := match r3 with
              | '+' :: rr => rr
              | '-' :: rr => rr
              | _ => r3
            if r4.isEmpty || !r4.all Char.isDigit then Option.none
            else
              let ex : ℕ := digitsToNat r4
              if epos then some (.finite (base * (10 : ℚ) ^ ex))
              else some (.finite (base / (10 : ℚ) ^ ex))
          else Option.none

/-- Decimal digits of the fractional part of a rational in `[0, 1)`,
produced most-significant first, stopping at the fuel bound. -/
def fracDigits : ℕ → ℚ → List Char
  | 0, _ => []
  | fuel + 1, q =>
      if q = 0 then []
      else
        let q10 := q * 10
        let d : ℤ := ⌊q10⌋
        Char.ofNat ('0'.toNat + d.toNat) :: fracDigits fuel (q10 - (d : ℚ))

/-- Best-effort model of Python's `str()` on floats (`repr` shortest-digits
behaviour is approximated by exact decimal expansion cut at 17 digits; no
claim depends on this rendering). -/
def floatStr (f : FloatVal) : String :=
  match f with
  | .nan => "nan"
  | .inf true => "inf"
  | .inf false => "-inf"
  | .finite q =>
      let signStr := if q < 0 then "-" else ""
      let a : ℚ := |q|
      let ip : ℕ := ⌊a⌋.toNat
      let fr := fracDigits 17 (a - (⌊a⌋ : ℚ))
      let frStr := if fr.isEmpty then "0" else String.mk fr
      signStr ++ toString ip ++ "." ++ frStr

def squote : String := String.mk [Char.ofNat 39]

def joinComma : List String → String
  | [] => ""
  | [x] => x
  | x :: xs => x ++ ", " ++ joinComma xs

mutual

/-- Python `str(value)`. -/
def pyStr : Value → String
  | .none => "None"
  | .bool b => if b then "True" else "False"
  | .int n => toString n
  | .float f => floatStr f
  | .str s => s
  | .list xs => "[" ++ joinComma (pyReprList xs) ++ "]"
  | .dict xs => "\x7b" ++ joinComma (pyReprDict xs) ++ "\x7d"

/-- Python `repr(value)` (single-quote string quoting modelled
unconditionally). -/
def pyRepr : Value → String
  | .str s => squote ++ s ++ squote
  | .none => "None"
  | .bool b => if b then "True" else "False"
  | .int n => toString n
  | .float f => floatStr f
  | .list xs => "[" ++ joinComma (pyReprList xs) ++ "]"
  | .dict xs => "\x7b" ++ joinComma (pyReprDict xs) ++ "\x7d"

def pyReprList : List Value → List String
  | [] => []
  | v :: vs => pyRepr v :: pyReprList vs

def pyReprDict : List (String × Value) → List String
  | [] => []
  | (k, v) :: kvs => (squote ++ k ++ squote ++ ": " ++ pyRepr v) :: pyReprDict kvs

end

def jsonSkipWs (l : List Char) : List Char :=
  l.dropWhile (fun c => c == ' ' || c == '\t' || c == '\n' || c == '\r')

def hexDigitVal (c : Char) : Option ℕ :=
  let n := c.toNat
  if 48 ≤ n ∧ n ≤ 57 then some (n - 48)
  else if 97 ≤ n ∧ n ≤ 102 then some (n - 87)
  else if 65 ≤ n ∧ n ≤ 70 then some (n - 55)
  else Option.none

/-- JSON string body parser (after the opening quote); handles the standard
escapes; `\uXXXX` is decoded as a single code point (surrogate pairs are not
modelled). -/
def jsonParseStringGo (acc : List Char) : List Char → Option (String × List Char)
  | [] => Option.none
  | '"' :: rest => some (String.mk acc.reverse, rest)
  | '\\' :: esc :: rest =>
      match esc with
      | '"' => jsonParseStringGo ('"' :: acc) rest
      | '\\' => jsonParseStringGo ('\\' :: acc) rest
      | '/' => jsonParseStringGo ('/' :: acc) rest
      | 'b' => jsonParseStringGo ('\x08' :: acc) rest
      | 'f' => jsonParseStringGo ('\x0c' :: acc) rest
      | 'n' => jsonParseStringGo ('\n' :: acc) rest
      | 'r' => jsonParseStringGo ('\r' :: acc) rest
      | 't' => jsonParseStringGo ('\t' :: acc) rest
      | 'u' =>
          match rest with
          | a :: b :: c :: d :: rest' =>
              match hexDigitVal a, hexDigitVal b, hexDigitVal c, hexDigitVal d with
              | some x, some y, some z, some w =>
                  jsonParseStringGo (Char.ofNat (((x * 16 + y) * 16 + z) * 16 + w) :: acc) rest'
              | _, _, _, _ => Option.none
          | _ => Option.none
      | _ => Option.none
  | c :: rest => jsonParseStringGo (c :: acc) rest

def jsonParseString : List Char → Option (String × List Char) :=
  jsonParseStringGo []

/-- JSON number parser: `-?int frac? exp?` with the JSON leading-zero rule;
an integer literal yields `Value.int`, otherwise a float. -/
def jsonParseNumber (l : List Char) : Option (Value × List Char) :=
  let (neg, l1) : Bool × List Char :=
    match l with
    | '-' :: rest => (true, rest)
    | _ => (false, l)
  let intPart := l1.takeWhile Char.isDigit
  let r1 := l1.dropWhile Char.isDigit
  if intPart.isEmpty then Option.none
  else if intPart.length > 1 && intPart.head? == some '0' then Option.none
  else
    let (fracPart, r2) : List Char × List Char :=
      match r1 with
      | '.' :: rr => (rr.takeWhile Char.isDigit, rr.dropWhile Char.isDigit)
      | _ => ([], r1)
    if r1.head? == some '.' && fracPart.isEmpty then Option.none
    else
      let hasFrac : Bool := r1.head? == some '.'
      let expParse : Option (Option (Bool × ℕ) × List Char) :=
        match r2 with
        | e :: r3 =>
            if e == 'e' || e == 'E' then
              let epos : Bool := match r3 with
                | '-' :: _ => false
                | _ => true
              let r4 : List Char := match r3 with
                | '+' :: rr => rr
                | '-' :: rr => rr
                | _ => r3
              let expDigits := r4.takeWhile Char.isDigit
              if expDigits.isEmpty then Option.none
              else some (some (epos, digitsToNat expDigits), r4.dropWhile Char.isDigit)
            else some (Option.none, r2)
        | [] => some (Option.none, [])
      match expParse with
      | Option.none => Option.none
      | some (exp?, rest) =>
          let mantNat : ℤ := (digitsToNat (intPart ++ fracPart) : ℤ)
          let mant : ℤ := if neg then -mantNat else mantNat
          match hasFrac, exp? with
          | false, Option.none => some (.int mant, rest)
          | _, _ =>
              let base : ℚ := (mant : ℚ) / (10 : ℚ) ^ fracPart.length
              let q : ℚ := match exp? with
                | some (true, ex) => base * (10 : ℚ) ^ ex
                | some (false, ex) => base / (10 : ℚ) ^ ex
                | Option.none => base
              some (.float (.finite q), rest)

mutual

/-- Fuel-indexed JSON value parser (model of Python `json.loads` body; fuel
is sized so that any input the engine can feed it parses within bounds). -/
def jsonParseValue : ℕ → List Char → Option (Value × List Char)
  | 0, _ => Option.none
  | fuel + 1, l =>
      match jsonSkipWs l with
      | 't' :: 'r' :: 'u' :: 'e' :: r => some (.bool true, r)
      | 'f' :: 'a' :: 'l' :: 's' :: 'e' :: r => some (.bool false, r)
      | 'n' :: 'u' :: 'l' :: 'l' :: r => some (.none, r)
      | 'N' :: 'a' :: 'N' :: r => some (.float .nan, r)
      | 'I' :: 'n' :: 'f' :: 'i' :: 'n' :: 'i' :: 't' :: 'y' :: r =>
          some (.float (.inf true), r)
      | '-' :: 'I' :: 'n' :: 'f' :: 'i' :: 'n' :: 'i' :: 't' :: 'y' :: r =>
          some (.float (.inf false), r)
      | '"' :: r =>
          match jsonParseString r with
          | some (s, r') => some (.str s, r')
          | Option.none => Option.none
      | '[' :: r =>
          (match jsonSkipWs r with
           | ']' :: r' => some (.list [], r')
           | _ => jsonParseElements fuel [] r)
      | '\x7b' :: r =>
          (match jsonSkipWs r with
           | '\x7d' :: r' => some (.dict [], r')
           | _ => jsonParseMembers fuel [] r)
      | l' => jsonParseNumber l'

def jsonParseElements : ℕ → List Value → List Char → Option (Value × List Char)
  | 0, _, _ => Option.none
  | fuel + 1, acc, l =>
      match jsonParseValue fuel l with
      | Option.none => Option.none
      | some (v, r) =>
          match jsonSkipWs r with
          | ',' :: r' => jsonParseElements fuel (v :: acc) r'
          | ']' :: r' => some (.list (v :: acc).reverse, r')
          | _ => Option.none

def jsonParseMembers : ℕ → Context → List Char → Option (Value × List Char)
  | 0, _, _ => Option.none
  | fuel + 1, acc, l =>
      match jsonSkipWs l with
      | '"' :: r =>
          match jsonParseString r with
          | Option.none => Option.none
          | some (k, r1) =>
              match jsonSkipWs r1 with
              | ':' :: r2 =>
                  match jsonParseValue fuel r2 with
                  | Option.none => Option.none
                  | some (v, r3) =>
                      match jsonSkipWs r3 with
                      | ',' :: r4 => jsonParseMembers fuel (ctxSet acc k v) r4
                      | '\x7d' :: r4 => some (.dict (ctxSet acc k v), r4)
                      | _ => Option.none
              | _ => Option.none
      | _ => Option.none

end

/-- Python `json.loads(s)`: parse one JSON value and require only trailing
whitespace after it. -/
def pyJsonLoads (s : String) : Option Value :=
  match jsonParseValue (2 * s.toList.length + 4) s.toList with
  | some (v, rest) => if (jsonSkipWs rest).isEmpty then some v else Option.none
  | Option.none => Option.none

/-- Python `s.split(sep)` for a one-character separator (empty fields
kept, `"".split(sep) == [""]`). -/
def splitOnCharGo (sep : Char) : List Char → List Char → List String
  | [], acc => [String.mk acc.reverse]
  | c :: cs, acc =>
      if c == sep then String.mk acc.reverse :: splitOnCharGo sep cs []
      else splitOnCharGo sep cs (c :: acc)

def splitOnChar (sep : Char) (s : String) : List String := splitOnCharGo sep s.toList []

/-- Walk of `_resolve_dot_notation`: for each path part the current value
must be a dict, else the result is `None`; a missing key or a stored `None`
stops the walk with `None`. -/
def resolveDotParts : List String → Value → Value
  | [], cur => cur
  | p :: ps, cur =>
      match cur with
      | .dict d =>
          (match ctxGet d p with
           | Option.none => Value.none
           | some v =>
               match v with
               | .none => Value.none
               | v' => resolveDotParts ps v')
      | _ => Value.none

/-- Model of `_resolve_dot_notation(path, context)`: split on `.` and walk nested
dicts; never raises. -/
def resolveDotNotation (path : String) (context : Context) : Value :=
  resolveDotParts (splitOnChar '.' path) (Value.dict context)

/-- The replacement `_substitute_variables` makes for one matched
`$\x7bpath\x7d` placeholder: the stringified dot-path lookup, or the literal
text `MISSING(path)` when the lookup is `None`. -/
def substReplacement (path : String) (context : Context) : String :=
  match resolveDotNotation path context with
  | .none => "MISSING(" ++ path ++ ")"
  | v => pyStr v

/-- Character-level model of `re.sub` with pattern `\$\x7b([^\x7d]+)\x7d` as used
by `_substitute_variables`: scan left to right; at a `$` followed by an
opening brace, a maximal non-empty run of non-closing-brace characters
followed by the closing brace is a match and is replaced via
`substReplacement`; at a failed match the scan advances one character, so
an empty or unterminated placeholder is left unchanged.  (The head of the
`dropWhile` residue, when it exists, is necessarily the closing brace.)
Fuel is the length of the scanned list, which every recursive call
strictly decreases. -/
def substAux (context : Context) : ℕ → List Char → List Char
  | 0, l => l
  | _ + 1, [] => []
  | fuel + 1, c1 :: cs1 =>
      match cs1 with
      | [] => c1 :: substAux context fuel []
      | c2 :: rest =>
          if c1 = '$' ∧ c2 = '\x7b' then
            let path := rest.takeWhile (fun c => c ≠ '\x7d')
            (match rest.dropWhile (fun c => c ≠ '\x7d') with
             | [] => c1 :: substAux context fuel cs1
             | _ :: tail =>
                 if path.isEmpty then c1 :: substAux context fuel cs1
                 else (substReplacement (String.mk path) context).toList ++
                   substAux context fuel tail)
          else c1 :: substAux context fuel cs1

/-- Model of `_substitute_variables(text, context)`. -/
def substituteVariables (text : String) (context : Context) : String :=
  String.mk (substAux context text.toList.length text.toList)

def sqChar : Char := Char.ofNat 39

/-- Python `s.startswith(c) and s.endswith(c)` for a single character. -/
def startsEndsWith (s : String) (c : Char) : Bool :=
  s.toList.head? == some c && s.toList.getLast? == some c

/-- Python `s[1:-1]`. -/
def stripEnds (s : String) : String :=
  String.mk ((s.toList.drop 1).dropLast)

/-- Shared tail of `_resolve_mapping_value`: dot-notation lookup, then
context-key lookup, then literal pass-through. -/
def resolveMappingTail (mappingValue : String) (context : Context) : Value :=
  if containsSubstr mappingValue "." then resolveDotNotation mappingValue context
  else
    match ctxGet context mappingValue with
    | some v => v
    | Option.none => .str mappingValue

/-- Model of `_resolve_mapping_value(mapping_value, context)`: fixed precedence over
the raw string.  The engine only ever passes strings (`input_mapping` is
`Dict[str, str]`), so the non-string early return of the source is not
modelled. -/
def resolveMappingValue (mappingValue : String) (context : Context) : Value :=
  if containsSubstr mappingValue "$\x7b" then
    .str (substituteVariables mappingValue context)
  else if startsEndsWith mappingValue '"' then
    .str (stripEnds mappingValue)
  else if startsEndsWith mappingValue sqChar then
    .str (stripEnds mappingValue)
  else if pyIsDigit mappingValue then
    .int (digitsToNat mappingValue.toList : ℤ)
  else
    match pyParseFloat mappingValue with
    | some f => .float f
    | Option.none =>
        let lower := String.mk (mappingValue.toList.map Char.toLower)
        if lower == "true" then .bool true
        else if lower == "false" then .bool false
        else if lower == "null" || lower == "none" then .none
        else if mappingValue.toList.head? == some '\x7b' || mappingValue.toList.head? == some '[' then
          match pyJsonLoads mappingValue with
          | some v => v
          | Option.none => resolveMappingTail mappingValue context
        else resolveMappingTail mappingValue context

/-- Tokens of the expression fragment that can reach `eval` in
`_evaluate_complex_condition` (only alphanumerics, `<`, `>`, parentheses,
quotes and spaces pass the character guard): numeric literals, names,
string literals, the comparison/shift punctuation and parentheses. -/
inductive EvalTok where
  | int (n : ℕ) : EvalTok
  | float (q : ℚ) : EvalTok
  | name (s : String) : EvalTok
  | str (s : String) : EvalTok
  | lt : EvalTok
  | gt : EvalTok
  | shl : EvalTok
  | shr : EvalTok
  | lparen : EvalTok
  | rparen : EvalTok
  deriving DecidableEq, Repr

def octDigitVal (c : Char) : Option ℕ :=
  let n := c.toNat
  if 48 ≤ n ∧ n ≤ 55 then some (n - 48) else Option.none

def binDigitVal (c : Char) : Option ℕ :=
  if c == '0' then some 0 else if c == '1' then some 1 else Option.none

/-- Digits of `l` read in base `base` via `digVal`; `Option.none` when `l`
is empty or holds a character outside the base. -/
def digitsInBase (base : ℕ) (digVal : Char → Option ℕ) (l : List Char) : Option ℕ :=
  if l.isEmpty then Option.none
  else l.foldl (fun acc c =>
    match acc, digVal c with
    | some n, some d => some (n * base + d)
    | _, _ => Option.none) (some 0)

/-- Decimal part of `numLitTok`: an all-digit run is an integer literal
(a leading zero before a nonzero digit is a `SyntaxError` in Python 3),
and `digits (e|E) digits` is an exponent float literal.  The float value
is kept as an exact rational (see the conventions above). -/
def numLitDec (run : List Char) : Option EvalTok :=
  let mant := run.takeWhile (fun c => c != 'e' && c != 'E')
  match run.dropWhile (fun c => c != 'e' && c != 'E') with
  | [] =>
      if mant.all Char.isDigit && !mant.isEmpty then
        if mant.head? == some '0' && mant.any (fun c => c != '0') then Option.none
        else some (.int (digitsToNat mant))
      else Option.none
  | _ :: expo =>
      if mant.all Char.isDigit && !mant.isEmpty && expo.all Char.isDigit && !expo.isEmpty then
        some (.float ((digitsToNat mant : ℚ) * 10 ^ digitsToNat expo))
      else Option.none

/-- CPython 3.12 lexing of a maximal alphanumeric run that starts with a
digit: hex/octal/binary integers (`0x1f`, `0o17`, `0b11`), decimal
integers, and exponent floats without a point or sign (`1e5` — the
characters `.`, `+`, `-` and `_` cannot pass the guard, so pointed,
signed-exponent and underscored literals never reach `eval`).
`Option.none` models a `SyntaxError`. -/
def numLitTok (run : List Char) : Option EvalTok :=
  match run with
  | '0' :: x :: rest =>
      if x == 'x' || x == 'X' then (digitsInBase 16 hexDigitVal rest).map EvalTok.int
      else if x == 'o' || x == 'O' then (digitsInBase 8 octDigitVal rest).map EvalTok.int
      else if x == 'b' || x == 'B' then (digitsInBase 2 binDigitVal rest).map EvalTok.int
      else numLitDec run
  | _ => numLitDec run

/-- Tokenizer for the fragment; `Option.none` models a Python
`SyntaxError`.  Characters not in the guard set also yield `Option.none`
(they never reach `eval` in the source).  Maximal munch: `<<`/`>>` are the
shift operators, a lone `<`/`>` a comparison; an alphanumeric run starting
with a digit is one numeric literal (so `0and` is a `SyntaxError`, as in
CPython 3.12). -/
def evalTokenizeGo : ℕ → List Char → Option (List EvalTok)
  | 0, _ => Option.none
  | _ + 1, [] => some []
  | fuel + 1, c :: cs =>
      if c == ' ' then evalTokenizeGo fuel cs
      else if c.isDigit then
        let run := (c :: cs).takeWhile Char.isAlphanum
        let rest := (c :: cs).dropWhile Char.isAlphanum
        match numLitTok run with
        | some t => (evalTokenizeGo fuel rest).map (fun ts => t :: ts)
        | Option.none => Option.none
      else if c.isAlphanum then
        let run := (c :: cs).takeWhile Char.isAlphanum
        let rest := (c :: cs).dropWhile Char.isAlphanum
        (evalTokenizeGo fuel rest).map (fun ts => EvalTok.name (String.mk run) :: ts)
      else if c == '<' then
        match cs with
        | '<' :: cs' => (evalTokenizeGo fuel cs').map (fun ts => EvalTok.shl :: ts)
        | _ => (evalTokenizeGo fuel cs).map (fun ts => EvalTok.lt :: ts)
      else if c == '>' then
        match cs with
        | '>' :: cs' => (evalTokenizeGo fuel cs').map (fun ts => EvalTok.shr :: ts)
        | _ => (evalTokenizeGo fuel cs).map (fun ts => EvalTok.gt :: ts)
      else if c == '(' then (evalTokenizeGo fuel cs).map (fun ts => EvalTok.lparen :: ts)
      else if c == ')' then (evalTokenizeGo fuel cs).map (fun ts => EvalTok.rparen :: ts)
      else if c == '"' || c == sqChar then
        let body := cs.takeWhile (fun x => x != c)
        match cs.dropWhile (fun x => x != c) with
        | _ :: rest' => (evalTokenizeGo fuel rest').map (fun ts => EvalTok.str (String.mk body) :: ts)
        | [] => Option.none
      else Option.none

/-- Comparison operators expressible past the character guard: `<`, `>`,
`in`, `not in`, `is`, `is not` (`==`, `!=`, `<=`, `>=` contain the
guard-rejected characters `=` and `!`). -/
inductive CmpOp where
  | lt : CmpOp
  | gt : CmpOp
  | inOp : CmpOp
  | notIn : CmpOp
  | isOp : CmpOp
  | isNot : CmpOp
  deriving DecidableEq, Repr

/-- Python's hard keywords minus the literals `True`/`False`/`None`: one of
these in atom position is a `SyntaxError` for the whole expression. -/
def pyKeyword (s : String) : Bool :=
  s ∈ ["and", "or", "not", "if", "else", "in", "is", "as", "assert",
       "async", "await", "break", "class", "continue", "def", "del",
       "elif", "except", "finally", "for", "from", "global", "import",
       "lambda", "nonlocal", "pass", "raise", "return", "try", "while",
       "with", "yield"]

/-- Expressions of the fragment: literals, names (evaluating one is a
`NameError` — see the model boundary at `pyEvalRestricted`), `or`/`and`/
`not`, chained comparisons, shifts, and conditional expressions
(`tern t c e` is `t if c else e`). -/
inductive EvalExpr where
  | lit (v : Value) : EvalExpr
  | name (s : String) : EvalExpr
  | orE (a b : EvalExpr) : EvalExpr
  | andE (a b : EvalExpr) : EvalExpr
  | notE (a : EvalExpr) : EvalExpr
  | cmp (first : EvalExpr) (rest : List (CmpOp × EvalExpr)) : EvalExpr
  | shift (isL : Bool) (a b : EvalExpr) : EvalExpr
  | tern (t c e : EvalExpr) : EvalExpr
  deriving Repr

/-- Adjacent string-literal tokens, for Python's implicit concatenation of
adjacent string literals (`'a' 'b'` is `'ab'`). -/
def takeStrToks : List EvalTok → List String × List EvalTok
  | EvalTok.str s :: rest =>
      let (ss, r) := takeStrToks rest
      (s :: ss, r)
  | toks => ([], toks)

/-- The comparison operator (if any) at the head of the token stream, with
the remaining tokens; `not in` and `is not` are two-token operators. -/
def cmpOpAt : List EvalTok → Option (CmpOp × List EvalTok)
  | EvalTok.lt :: rest => some (CmpOp.lt, rest)
  | EvalTok.gt :: rest => some (CmpOp.gt, rest)
  | EvalTok.name "in" :: rest => some (CmpOp.inOp, rest)
  | EvalTok.name "not" :: EvalTok.name "in" :: rest => some (CmpOp.notIn, rest)
  | EvalTok.name "is" :: EvalTok.name "not" :: rest => some (CmpOp.isNot, rest)
  | EvalTok.name "is" :: rest => some (CmpOp.isOp, rest)
  | _ => Option.none

mutual

def parseTernE : ℕ → List EvalTok → Option (EvalExpr × List EvalTok)
  | 0, _ => Option.none
  | fuel + 1, toks =>
      match parseOrE fuel toks with
      | Option.none => Option.none
      | some (a, rest) =>
          match rest with
          | .name "if" :: rest2 =>
              (match parseOrE fuel rest2 with
               | Option.none => Option.none
               | some (c, rest3) =>
                   match rest3 with
                   | .name "else" :: rest4 =>
                       (match parseTernE fuel rest4 with
                        | Option.none => Option.none
                        | some (e, rest5) => some (.tern a c e, rest5))
                   | _ => Option.none)
          | _ => some (a, rest)

def parseOrE : ℕ → List EvalTok → Option (EvalExpr × List EvalTok)
  | 0, _ => Option.none
  | fuel + 1, toks =>
      match parseAndE fuel toks with
      | Option.none => Option.none
      | some (a, rest) => parseOrRest fuel a rest

def parseOrRest : ℕ → EvalExpr → List EvalTok → Option (EvalExpr × List EvalTok)
  | 0, _, _ => Option.none
  | fuel + 1, acc, toks =>
      match toks with
      | .name "or" :: rest =>
          (match parseAndE fuel rest with
           | Option.none => Option.none
           | some (b, rest') => parseOrRest fuel (.orE acc b) rest')
      | _ => some (acc, toks)

def parseAndE : ℕ → List EvalTok → Option (EvalExpr × List EvalTok)
  | 0, _ => Option.none
  | fuel + 1, toks =>
      match parseNotE fuel toks with
      | Option.none => Option.none
      | some (a, rest) => parseAndRest fuel a rest

def parseAndRest : ℕ → EvalExpr → List EvalTok → Option (EvalExpr × List EvalTok)
  | 0, _, _ => Option.none
  | fuel + 1, acc, toks =>
      match toks with
      | .name "and" :: rest =>
          (match parseNotE fuel rest with
           | Option.none => Option.none
           | some (b, rest') => parseAndRest fuel (.andE acc b) rest')
      | _ => some (acc, toks)

def parseNotE : ℕ → List EvalTok → Option (EvalExpr × List EvalTok)
  | 0, _ => Option.none
  | fuel + 1, toks =>
      match toks with
      | .name "not" :: rest =>
          (match parseNotE fuel rest with
           | Option.none => Option.none
           | some (a, rest') => some (.notE a, rest'))
      | _ => parseCmpE fuel toks

def parseCmpE : ℕ → List EvalTok → Option (EvalExpr × List EvalTok)
  | 0, _ => Option.none
  | fuel + 1, toks =>
      match parseShiftE fuel toks with
      | Option.none => Option.none
      | some (a, rest) => parseCmpRest fuel a [] rest

def parseCmpRest : ℕ → EvalExpr → List (CmpOp × EvalExpr) → List EvalTok →
    Option (EvalExpr × List EvalTok)
  | 0, _, _, _ => Option.none
  | fuel + 1, first, acc, toks =>
      match cmpOpAt toks with
      | some (op, rest) =>
          (match parseShiftE fuel rest with
           | Option.none => Option.none
           | some (b, rest') => parseCmpRest fuel first ((op, b) :: acc) rest')
      | Option.none =>
          if acc.isEmpty then some (first, toks)
          else some (.cmp first acc.reverse, toks)

def parseShiftE : ℕ → List EvalTok → Option (EvalExpr × List EvalTok)
  | 0, _ => Option.none
  | fuel + 1, toks =>
      match parseAtomE fuel toks with
      | Option.none => Option.none
      | some (a, rest) => parseShiftRest fuel a rest

def parseShiftRest : ℕ → EvalExpr → List EvalTok → Option (EvalExpr × List EvalTok)
  | 0, _, _ => Option.none
  | fuel + 1, acc, toks =>
      match toks with
      | .shl :: rest =>
          (match parseAtomE fuel rest with
           | Option.none => Option.none
           | some (b, rest') => parseShiftRest fuel (.shift true acc b) rest')
      | .shr :: rest =>
          (match parseAtomE fuel rest with
           | Option.none => Option.none
           | some (b, rest') => parseShiftRest fuel (.shift false acc b) rest')
      | _ => some (acc, toks)

def parseAtomE : ℕ → List EvalTok → Option (EvalExpr × List EvalTok)
  | 0, _ => Option.none
  | fuel + 1, toks =>
      match toks with
      | .int n :: rest => some (.lit (.int (n : ℤ)), rest)
      | .float q :: rest => some (.lit (.float (.finite q)), rest)
      | .str s :: rest =>
          let (ss, r) := takeStrToks rest
          some (.lit (.str (ss.foldl (fun a b => a ++ b) s)), r)
      | .name "True" :: rest => some (.lit (.bool true), rest)
      | .name "False" :: rest => some (.lit (.bool false), rest)
      | .name "None" :: rest => some (.lit Value.none, rest)
      | .name s :: rest =>
          if pyKeyword s then Option.none else some (.name s, rest)
      | .lparen :: .rparen :: rest => some (.lit (.list []), rest)
      | .lparen :: rest =>
          (match parseTernE fuel rest with
           | Option.none => Option.none
           | some (e, rest') =>
               match rest' with
               | .rparen :: rest'' => some (e, rest'')
               | _ => Option.none)
      | _ => Option.none

end

/-- Ordering on Python floats: any comparison involving `nan` is false. -/
def floatLt : FloatVal → FloatVal → Bool
  | .nan, _ => false
  | _, .nan => false
  | .finite a, .finite b => a < b
  | .finite _, .inf p => p
  | .inf p, .finite _ => !p
  | .inf a, .inf b => !a && b

def floatLe (a b : FloatVal) : Bool := floatLt a b || pyNumEq a b

/-- One Python `<` / `>` comparison (`isLt = true` for `<`): numbers compare
numerically (`nan` incomparable but not an error), strings
lexicographically; the only tuple expressible past the guard is the empty
tuple (modelled `Value.list []`, no comma can pass the guard), and
`() < ()` / `() > ()` are `False`; any other operand mix raises
`TypeError` (`Option.none`). -/
def pyCmpOnce (a : Value) (isLt : Bool) (b : Value) : Option Bool :=
  match toNum? a, toNum? b with
  | some x, some y => some (if isLt then floatLt x y else floatLt y x)
  | _, _ =>
      match a, b with
      | .str x, .str y => some (if isLt then decide (x < y) else decide (y < x))
      | .list [], .list [] => some false
      | _, _ => Option.none

/-- Python `is` on the values expressible past the guard: all of them are
interned or folded constants of one `eval` call in CPython (`None`, the
bools, the literal ints/floats/strings of the expression — `and`/`or`/the
ternary return operand objects unchanged — and the singleton empty tuple),
so identity coincides with same-type value equality on this fragment. -/
def pyIs : Value → Value → Bool
  | .none, .none => true
  | .bool a, .bool b => a == b
  | .int a, .int b => a == b
  | .float a, .float b => a == b
  | .str a, .str b => a == b
  | .list a, .list b => a.isEmpty && b.isEmpty
  | _, _ => false

/-- Python membership `l in r`; `Option.none` models `TypeError`. -/
def pyIn (l r : Value) : Option Bool :=
  match r with
  | .str s =>
      (match l with
       | .str sub => some (containsSubstr s sub)
       | _ => Option.none)
  | .list xs => some (xs.any (fun x => pyEq l x))
  | .dict d =>
      (match l with
       | .str k => some (d.any (fun kv => kv.1 == k))
       | .list _ => Option.none
       | .dict _ => Option.none
       | _ => some false)
  | _ => Option.none

/-- One chained-comparison link of the fragment. -/
def pyCmpOp (a : Value) (op : CmpOp) (b : Value) : Option Bool :=
  match op with
  | .lt => pyCmpOnce a true b
  | .gt => pyCmpOnce a false b
  | .inOp => pyIn a b
  | .notIn => (pyIn a b).map (fun r => !r)
  | .isOp => some (pyIs a b)
  | .isNot => some (!pyIs a b)

/-- A shift operand: `int` (and `bool`, which is an `int` subtype); any
other type is a `TypeError`. -/
def shiftOperand : Value → Option ℤ
  | .bool b => some (if b then 1 else 0)
  | .int n => some n
  | _ => Option.none

/-- Python `<<` / `>>` (`isL = true` for `<<`): `x >> n` is floor division
by `2 ^ n`; a negative shift count is a `ValueError` (unreachable here — no
`-` passes the guard). -/
def pyShift (a : Value) (isL : Bool) (b : Value) : Option Value :=
  match shiftOperand a, shiftOperand b with
  | some x, some y =>
      if y < 0 then Option.none
      else some (.int (if isL then x * 2 ^ y.toNat else Int.fdiv x (2 ^ y.toNat)))
  | _, _ => Option.none

mutual

/-- Evaluation of a fragment expression; `Option.none` models a Python
exception (`NameError`, `TypeError`).  `and`/`or` short-circuit and return
an operand (not a coerced boolean); chained comparisons short-circuit on
the first false link; the conditional expression evaluates only the taken
branch. -/
def evalExprEval : EvalExpr → Option Value
  | .lit v => some v
  | .name _ => Option.none
  | .orE a b =>
      (match evalExprEval a with
       | Option.none => Option.none
       | some va => if pyTruthy va then some va else evalExprEval b)
  | .andE a b =>
      (match evalExprEval a with
       | Option.none => Option.none
       | some va => if pyTruthy va then evalExprEval b else some va)
  | .notE a =>
      (match evalExprEval a with
       | Option.none => Option.none
       | some va => some (.bool (!pyTruthy va)))
  | .cmp first rest =>
      (match evalExprEval first with
       | Option.none => Option.none
       | some va => evalCmpChain va rest)
  | .shift isL a b =>
      (match evalExprEval a with
       | Option.none => Option.none
       | some va =>
           match evalExprEval b with
           | Option.none => Option.none
           | some vb => pyShift va isL vb)
  | .tern t c e =>
      (match evalExprEval c with
       | Option.none => Option.none
       | some vc => if pyTruthy vc then evalExprEval t else evalExprEval e)

def evalCmpChain : Value → List (CmpOp × EvalExpr) → Option Value
  | _, [] => some (.bool true)
  | va, (op, be) :: rest =>
      match evalExprEval be with
      | Option.none => Option.none
      | some vb =>
          match pyCmpOp va op vb with
          | Option.none => Option.none
          | some false => some (.bool false)
          | some true => evalCmpChain vb rest

end

/-- Model of CPython `eval` (3.12 syntax) on the strings that can pass the
character guard of `_evaluate_complex_condition`.  Modelled fragment:
integer literals (decimal, hex, octal, binary), exponent float literals,
string literals with implicit concatenation, `True`/`False`/`None`, the
empty tuple `()`, parentheses, lazy `and`/`or`/`not`, chained comparisons
with `<`, `>`, `in`, `not in`, `is`, `is not`, the shifts `<<`/`>>`, and
conditional expressions `t if c else e`.  `Option.none` models a raised
exception (`SyntaxError`, `NameError`, `TypeError`), which the caller
turns into the fail-open `True`.  Model boundary: the source calls `eval`
with unrestricted builtins, so a bare name can resolve to a builtin
(always a truthy object) and a call or generator expression over builtins
can return a value; here every name evaluates as `NameError` and a call is
a parse error, both `True` downstream.  No claim exercises builtin names,
and float values are exact rationals throughout (see the conventions
above). -/
def pyEvalRestricted (s : String) : Option Value :=
  match evalTokenizeGo (s.toList.length + 1) s.toList with
  | Option.none => Option.none
  | some [] => Option.none
  | some toks =>
      match parseTernE (16 * toks.length + 16) toks with
      | some (e, []) => evalExprEval e
      | _ => Option.none

/-- Characters accepted by the guard of `_evaluate_complex_condition`:
the source iterates `for word in condition` over the *characters* of the
string, so a character passes iff it is alphanumeric, is one of the
one-character entries `>`/`<` of the keyword list, or is in `()"' `. -/
def complexCharAllowed (c : Char) : Bool :=
  c.isAlphanum || c == '>' || c == '<' || c == '(' || c == ')' ||
  c == '"' || c == sqChar || c == ' '

/-- Model of `_evaluate_complex_condition(condition, context)`: substitute variables
(again), apply the character-level guard, then evaluate with `eval`; a guard
failure or an evaluation error yields `True`.  The source returns `eval`'s
result unconverted, so the model returns a `Value`. -/
def evaluateComplexCondition (condition : String) (context : Context) : Value :=
  let c := substituteVariables condition context
  if c.toList.all complexCharAllowed then
    match pyEvalRestricted c with
    | some v => v
    | Option.none => .bool true
  else .bool true

/-- Python `float(x)` as used by the ordering operators of
`_evaluate_condition`; `Option.none` models `TypeError`/`ValueError`. -/
def pyToFloat : Value → Option FloatVal
  | .bool b => some (.finite (if b then 1 else 0))
  | .int n => some (.finite (n : ℚ))
  | .float f => some f
  | .str s => pyParseFloat s
  | _ => Option.none

/-- One simple-condition comparison `left op right` of
`_evaluate_condition`; `Option.none` models a raised exception (caught by
the enclosing handler, which yields `True`); an unknown operator is not an
error — the source logs a warning and returns `True`. -/
def compareOp (lv : Value) (op : String) (rv : Value) : Option Bool :=
  if op == "==" then some (pyEq lv rv)
  else if op == "!=" then some (!pyEq lv rv)
  else if op == ">" then
    match pyToFloat lv, pyToFloat rv with
    | some a, some b => some (floatLt b a)
    | _, _ => Option.none
  else if op == "<" then
    match pyToFloat lv, pyToFloat rv with
    | some a, some b => some (floatLt a b)
    | _, _ => Option.none
  else if op == ">=" then
    match pyToFloat lv, pyToFloat rv with
    | some a, some b => some (floatLe b a)
    | _, _ => Option.none
  else if op == "<=" then
    match pyToFloat lv, pyToFloat rv with
    | some a, some b => some (floatLe a b)
    | _, _ => Option.none
  else if op == "in" then pyIn lv rv
  else if op == "contains" then pyIn rv lv
  else some true

/-- The operators `_evaluate_condition` dispatches on. -/
def simpleOps : List String := ["==", "!=", ">", "<", ">=", "<=", "in", "contains"]

/-- Model of `_evaluate_condition(condition, context)`: substitute `$\x7b...\x7d`, strip,
delegate to the complex evaluator when ` and `/` or `/` not ` is present,
else expect exactly `left op right`; malformed shapes and caught errors
yield `True`. -/
def evaluateCondition (condition : String) (context : Context) : Value :=
  let c := pyStrip (substituteVariables condition context)
  if containsSubstr c " and " || containsSubstr c " or " || containsSubstr c " not " then
    evaluateComplexCondition c context
  else
    match pySplitWs c with
    | [l, op, r] =>
        (match compareOp (resolveMappingValue l context) op (resolveMappingValue r context) with
         | some b => .bool b
         | Option.none => .bool true)
    | _ => .bool true

/-- Generic first-match association-list lookup (Python dict access for
non-`Value` payloads). -/
def assocGet {α : Type} : List (String × α) → String → Option α
  | [], _ => Option.none
  | (k, v) :: rest, key => if k == key then some v else assocGet rest key

/-- Generic association-list assignment (overwrite in place or append). -/
def assocSet {α : Type} : List (String × α) → String → α → List (String × α)
  | [], key, val => [(key, val)]
  | (k, v) :: rest, key, val =>
      if k == key then (k, val) :: rest else (k, v) :: assocSet rest key val

/-- The `WorkflowStatus` enum of `models.py`. -/
inductive WorkflowStatus where
  | pending : WorkflowStatus
  | running : WorkflowStatus
  | completed : WorkflowStatus
  | failed : WorkflowStatus
  | cancelled : WorkflowStatus
  deriving DecidableEq, Repr

/-- The `StepStatus` enum of `models.py`. -/
inductive StepStatus where
  | pending : StepStatus
  | running : StepStatus
  | completed : StepStatus
  | failed : StepStatus
  | skipped : StepStatus
  deriving DecidableEq, Repr

/-- The `WorkflowStep` model of `models.py` (fields the engine reads). -/
structure WorkflowStep where
  step_id : String
  name : String := ""
  agent_type : String := ""
  input_mapping : List (String × String) := []
  output_mapping : List (String × String) := []
  depends_on : List String := []
  condition : Option String := Option.none
  timeout : ℕ := 300
  retry_count : ℕ := 0
  deriving DecidableEq, Repr

/-- The `WorkflowDefinition` model of `models.py` (fields the engine reads; the
authoring metadata — description, version, timestamps — is never read by
the engine). -/
structure WorkflowDefinition where
  workflow_id : String := ""
  name : String := ""
  steps : List WorkflowStep
  global_timeout : ℕ := 3600
  deriving DecidableEq, Repr

/-- The `StepExecution` model of `models.py`; timestamps are clock ticks (see the
module docstring). -/
structure StepExecution where
  step_id : String
  execution_id : String
  status : StepStatus := .pending
  start_time : Option ℕ := Option.none
  end_time : Option ℕ := Option.none
  input_data : Option Context := Option.none
  output_data : Option Context := Option.none
  error_message : Option String := Option.none
  agent_id : Option String := Option.none
  retry_attempt : ℕ := 0
  deriving DecidableEq, Repr

/-- The `WorkflowExecution` model of `models.py`. -/
structure WorkflowExecution where
  execution_id : String := ""
  workflow_id : String := ""
  status : WorkflowStatus := .pending
  start_time : Option ℕ := Option.none
  end_time : Option ℕ := Option.none
  input_data : Context := []
  context : Context := []
  step_executions : List StepExecution := []
  error_message : Option String := Option.none
  deriving DecidableEq, Repr

/-- The `CheckpointType` enum of `workflow_engine.py`. -/
inductive CheckpointType where
  | step_start : CheckpointType
  | step_complete : CheckpointType
  | workflow_start : CheckpointType
  deriving DecidableEq, Repr

/-- The `WorkflowCheckpoint` model of `workflow_engine.py`. -/
structure WorkflowCheckpoint where
  checkpoint_id : String
  execution_id : String
  checkpoint_type : CheckpointType
  step_id : Option String := Option.none
  context_snapshot : Context
  step_states : List (String × StepStatus)
  created_at : ℕ := 0
  deriving DecidableEq, Repr

/-- The normalized response dictionary `_call_agent` always returns
(success flag, `output_data` defaulting to the empty dict, optional error
message and serving agent id). -/
structure AgentResponse where
  success : Bool
  output_data : Context := []
  error_message : Option String := Option.none
  agent_id : Option String := Option.none
  deriving DecidableEq, Repr

/-- The external agent service, modelled as an oracle giving the response
to the n-th agent invocation of a run. -/
abbrev AgentOracle := ℕ → AgentResponse

/-- Observable engine events: a step about to be set RUNNING (with the
statuses of every step at that moment) and checkpoint creations. -/
inductive TraceEvent where
  | runAttempt (step : WorkflowStep) (statuses : List (String × StepStatus)) : TraceEvent
  | checkpointCreated (kind : CheckpointType) (stepId : Option String) : TraceEvent
  deriving DecidableEq, Repr

/-- Per-run engine state: the `utcnow` tick counter and logs of agent
invocations, backoff sleeps and trace events. -/
structure EngineState where
  clock : ℕ := 0
  calls : List (String × Context × ℕ) := []
  sleeps : List ℕ := []
  events : List TraceEvent := []
  deriving DecidableEq, Repr

/-- Model of `datetime.utcnow()`: read and advance the tick counter. -/
def utcnow (st : EngineState) : ℕ × EngineState :=
  (st.clock, { st with clock := st.clock + 1 })

def addEvent (st : EngineState) (ev : TraceEvent) : EngineState :=
  { st with events := st.events ++ [ev] }

def addSleep (st : EngineState) (d : ℕ) : EngineState :=
  { st with sleeps := st.sleeps ++ [d] }

/-- Model of `_call_agent(agent_type, input_data, timeout)`: by contract never
raises; the oracle supplies the normalized response for the n-th call. -/
def callAgent (oracle : AgentOracle) (agentType : String) (inputData : Context)
    (timeout : ℕ) (st : EngineState) : AgentResponse × EngineState :=
  (oracle st.calls.length, { st with calls := st.calls ++ [(agentType, inputData, timeout)] })

/-- Model of `_map_step_input(step, context)`. -/
def mapStepInput (step : WorkflowStep) (context : Context) : Context :=
  step.input_mapping.foldl (fun acc kv => ctxSet acc kv.1 (resolveMappingValue kv.2 context)) []

/-- Recursive core of `_set_nested_value`: intermediate missing or non-dict
values are replaced by fresh dicts. -/
def setNestedParts : Context → List String → Value → Context
  | ctx, [], _ => ctx
  | ctx, [p], v => ctxSet ctx p v
  | ctx, p :: ps, v =>
      let sub : Context :=
        match ctxGet ctx p with
        | some (.dict d) => d
        | _ => []
      ctxSet ctx p (.dict (setNestedParts sub ps v))

/-- Model of `_set_nested_value(context, path, value)`. -/
def setNestedValue (context : Context) (path : String) (v : Value) : Context :=
  if containsSubstr path "." then setNestedParts context (splitOnChar '.' path) v
  else ctxSet context path v

/-- Model of `_map_step_output(step, step_output, context)`: project declared output
keys into the context; a missing output key is skipped (warning only). -/
def mapStepOutput (step : WorkflowStep) (stepOutput : Context) (context : Context) : Context :=
  step.output_mapping.foldl
    (fun ctx kv =>
      match ctxGet stepOutput kv.1 with
      | some v => setNestedValue ctx kv.2 v
      | Option.none => ctx)
    context

/-- Model of `_dependencies_satisfied(step, completed_steps)`. -/
def dependenciesSatisfied (step : WorkflowStep) (completedSteps : List String) : Bool :=
  step.depends_on.all (fun depId => completedSteps.contains depId)

/-- Model of `_get_step_execution(execution, step_id)`: first-match lookup. -/
def getStepExecution (stepExecs : List StepExecution) (stepId : String) : Option StepExecution :=
  stepExecs.find? (fun se => se.step_id == stepId)

/-- Write back the mutation of the step execution object found by
`_get_step_execution` (replace the first match). -/
def setStepExecution : List StepExecution → String → StepExecution → List StepExecution
  | [], _, _ => []
  | se :: rest, stepId, se' =>
      if se.step_id == stepId then se' :: rest else se :: setStepExecution rest stepId se'

/-- The terminal statuses of the scheduler's
`in [COMPLETED, FAILED, SKIPPED]` check. -/
def isTerminal (s : StepStatus) : Bool :=
  s == .completed || s == .failed || s == .skipped

def optionStr : Option String → String
  | some s => s
  | Option.none => "None"

/-- Model of `_execute_step_enhanced`: one attempt at a step.  The pause wait is a
no-op for unpaused runs; checkpoint creation is recorded as a trace event
(checkpoint contents are snapshotted from the external registry — out of
scope for these claims; the list mechanics are modelled by
`addCheckpoint` below).  The `workflow_def` parameter of the source is
never read by the body and is omitted.  The `except` branch of the source
is unreachable in the model: every modelled operation is total and
`_call_agent` never raises. -/
def executeStepEnhanced (oracle : AgentOracle) (execution : WorkflowExecution)
    (step : WorkflowStep) (se : StepExecution) (st : EngineState) :
    StepExecution × Context × EngineState :=
  let st0 := addEvent st (.checkpointCreated .step_start (some step.step_id))
  let p1 := utcnow st0
  let se1 := { se with status := .running, start_time := some p1.1 }
  let condFalse : Bool :=
    match step.condition with
    | some c => c != "" && !pyTruthy (evaluateCondition c execution.context)
    | Option.none => false
  if condFalse then
    let p2 := utcnow p1.2
    let se2 := { se1 with status := .skipped, end_time := some p2.1 }
    let p3 := utcnow p2.2
    ({ se2 with end_time := some p3.1 }, execution.context, p3.2)
  else
    let inputData := mapStepInput step execution.context
    let se2 := { se1 with input_data := some inputData }
    let cr := callAgent oracle step.agent_type inputData step.timeout p1.2
    let resp := cr.1
    if resp.success then
      let se3 := { se2 with status := .completed, output_data := some resp.output_data,
                            agent_id := resp.agent_id }
      let ctx' := mapStepOutput step resp.output_data execution.context
      let st3 := addEvent cr.2 (.checkpointCreated .step_complete (some step.step_id))
      let p4 := utcnow st3
      ({ se3 with end_time := some p4.1 }, ctx', p4.2)
    else
      let se3 := { se2 with status := .failed,
                            error_message := some (resp.error_message.getD "Unknown error") }
      if se3.retry_attempt < step.retry_count then
        let se4 := { se3 with retry_attempt := se3.retry_attempt + 1, status := .pending }
        let st3 := addSleep cr.2 (2 ^ se4.retry_attempt)
        let p4 := utcnow st3
        ({ se4 with end_time := some p4.1 }, execution.context, p4.2)
      else
        let p4 := utcnow cr.2
        ({ se3 with end_time := some p4.1 }, execution.context, p4.2)

/-- Result of one pass of the inner `for step in workflow_def.steps` loop
of `execute_workflow`. -/
structure ScanResult where
  exec : WorkflowExecution
  st : EngineState
  completed : List String
  progress : Bool
  deriving Repr

def statusesOf (exec : WorkflowExecution) : List (String × StepStatus) :=
  exec.step_executions.map (fun se => (se.step_id, se.status))

/-- One pass of the inner step loop of `execute_workflow`.  A `runAttempt`
event records the statuses of every step at the moment a step is about to
be set RUNNING (setting RUNNING is the first mutation `_execute_step_enhanced`
performs).  The `ValueError` of `_get_step_execution` is unreachable (step
executions are created 1:1 from the definition's steps) and modelled as a
skip.  A step failure with exhausted retries sets the workflow FAILED and
breaks out of the pass. -/
def scanPass (oracle : AgentOracle) :
    List WorkflowStep → WorkflowExecution → EngineState → List String → Bool → ScanResult
  | [], exec, st, completed, progress => ⟨exec, st, completed, progress⟩
  | step :: rest, exec, st, completed, progress =>
      if completed.contains step.step_id then scanPass oracle rest exec st completed progress
      else if dependenciesSatisfied step completed then
        match getStepExecution exec.step_executions step.step_id with
        | Option.none => scanPass oracle rest exec st completed progress
        | some se =>
            if se.status == .pending then
              let st1 := addEvent st (.runAttempt step (statusesOf exec))
              let r := executeStepEnhanced oracle exec step se st1
              let se' := r.1
              let exec1 := { exec with
                step_executions := setStepExecution exec.step_executions step.step_id se',
                context := r.2.1 }
              if isTerminal se'.status then
                let completed1 := completed ++ [step.step_id]
                if se'.status == .failed && step.retry_count ≤ se'.retry_attempt then
                  let exec2 := { exec1 with
                    status := WorkflowStatus.failed,
                    error_message := some ("Step " ++ step.name ++ " failed: " ++
                      optionStr se'.error_message) }
                  ⟨exec2, r.2.2, completed1, true⟩
                else scanPass oracle rest exec1 r.2.2 completed1 true
              else scanPass oracle rest exec1 r.2.2 completed progress
            else scanPass oracle rest exec st completed progress
      else scanPass oracle rest exec st completed progress

/-- The `while` scan loop of `execute_workflow`; `fuel` is the remaining
iteration budget (`max_iterations - iteration`).  Returns the execution,
the engine state and the scheduler's terminal set. -/
def runLoop (oracle : AgentOracle) (wf : WorkflowDefinition) :
    ℕ → WorkflowExecution → EngineState → List String →
    WorkflowExecution × EngineState × List String
  | 0, exec, st, completed => (exec, st, completed)
  | fuel + 1, exec, st, completed =>
      if completed.length < wf.steps.length then
        let r := scanPass oracle wf.steps exec st completed false
        if r.exec.status == .failed then (r.exec, r.st, r.completed)
        else if r.progress then runLoop oracle wf fuel r.exec r.st r.completed
        else
          let exec' := { r.exec with
            status := WorkflowStatus.failed,
            error_message := some "Circular dependency detected in workflow" }
          (exec', r.st, r.completed)
      else (exec, st, completed)

/-- Model of `execute_workflow(workflow_def, execution)`: create the initial
checkpoint, set RUNNING and the start time, materialize one PENDING
`StepExecution` per step, seed the context with the input data, run up to
`2 × step_count` scan iterations, finalize (still-RUNNING becomes
COMPLETED) and record the end time. -/
def executeWorkflow (oracle : AgentOracle) (workflowDef : WorkflowDefinition)
    (execution : WorkflowExecution) : WorkflowExecution × EngineState :=
  let st1 := addEvent {} (.checkpointCreated .workflow_start Option.none)
  let p0 := utcnow st1
  let exec1 := { execution with
    status := .running,
    start_time := some p0.1,
    step_executions := workflowDef.steps.map (fun s =>
      { step_id := s.step_id, execution_id := execution.execution_id }),
    context := ctxUpdate execution.context execution.input_data }
  let r := runLoop oracle workflowDef (workflowDef.steps.length * 2) exec1 p0.2 []
  let exec2 := r.1
  let exec3 := if exec2.status == .running then { exec2 with status := .completed } else exec2
  let p1 := utcnow r.2.1
  ({ exec3 with end_time := some p1.1 }, p1.2)

/-- The trim of `create_checkpoint`: `self.checkpoints[execution_id][-10:]`. -/
def lastTen (l : List WorkflowCheckpoint) : List WorkflowCheckpoint :=
  l.drop (l.length - 10)

/-- Update of one execution's checkpoint list by `create_checkpoint`: append
the new checkpoint, keep only the last 10. -/
def addCheckpoint (l : List WorkflowCheckpoint) (cp : WorkflowCheckpoint) :
    List WorkflowCheckpoint :=
  lastTen (l ++ [cp])

/-- The snapshot `create_checkpoint` takes from the execution record it
fetched from the registry: a copy of the context and a map of every step's
current status. -/
def makeCheckpoint (cpId : String) (execution : WorkflowExecution)
    (kind : CheckpointType) (stepId : Option String) (now : ℕ) : WorkflowCheckpoint :=
  { checkpoint_id := cpId
  , execution_id := execution.execution_id
  , checkpoint_type := kind
  , step_id := stepId
  , context_snapshot := execution.context
  , step_states := execution.step_executions.foldl
      (fun acc se => assocSet acc se.step_id se.status) []
  , created_at := now }

/-- Per-step restoration of `rollback_to_checkpoint`: a step recorded in
the snapshot takes the recorded status (fields reset when moved to
PENDING); the boolean reports whether the rollback callback fired (step
moved out of COMPLETED). -/
def rollbackStep (stepStates : List (String × StepStatus)) (se : StepExecution) :
    StepExecution × Bool :=
  match assocGet stepStates se.step_id with
  | Option.none => (se, false)
  | some target =>
      let fired := se.status == .completed && target != .completed
      let se1 := { se with status := target }
      let se2 :=
        if target == .pending then
          { se1 with start_time := Option.none, end_time := Option.none,
                     output_data := Option.none, error_message := Option.none }
        else se1
      (se2, fired)

/-- Model of `rollback_to_checkpoint(execution_id, checkpoint_id)`: find the
checkpoint in the engine's store, fetch the execution from the registry
(passed in as `execOpt`; the registry is an external collaborator),
restore context and step statuses, set the workflow RUNNING.  Returns the
updated execution with the list of step ids whose rollback callback fired,
or `Option.none` for the logged-and-return-`False` failure paths. -/
def rollbackToCheckpoint (store : List (String × List WorkflowCheckpoint))
    (executionId checkpointId : String) (execOpt : Option WorkflowExecution) :
    Option (WorkflowExecution × List String) :=
  match assocGet store executionId with
  | Option.none => Option.none
  | some cps =>
      match cps.find? (fun cp => cp.checkpoint_id == checkpointId) with
      | Option.none => Option.none
      | some checkpoint =>
          match execOpt with
          | Option.none => Option.none
          | some execution =>
              let pairs := execution.step_executions.map (rollbackStep checkpoint.step_states)
              some ({ execution with
                        context := checkpoint.context_snapshot,
                        step_executions := pairs.map Prod.fst,
                        status := .running },
                    (pairs.filter (fun p => p.2)).map (fun p => p.1.step_id))

/-! ## Concrete scenario inputs shared by the theorems below -/

/-- An agent oracle whose every invocation fails. -/
def alwaysFailOracle : AgentOracle :=
  fun _ => { success := false, error_message := some "boom" }

/-- An agent oracle whose every invocation succeeds with output `r = 1`. -/
def alwaysOkOracle : AgentOracle :=
  fun _ => { success := true, output_data := [("r", Value.int 1)], agent_id := some "agent-1" }

/-- Single-step workflow whose step has `retry_count = 2`. -/
def wfSingleRetry : WorkflowDefinition :=
  { steps := [ { step_id := "s1", name := "S1", agent_type := "t", retry_count := 2 } ] }

/-- Two mutually dependent steps (`A depends_on [B]`, `B depends_on [A]`). -/
def wfCycle : WorkflowDefinition :=
  { steps := [ { step_id := "A", name := "A", depends_on := ["B"] },
               { step_id := "B", name := "B", depends_on := ["A"] } ] }

/-- Two-step chain: `B depends_on [A]`. -/
def wfChain : WorkflowDefinition :=
  { steps := [ { step_id := "A", name := "A" },
               { step_id := "B", name := "B", depends_on := ["A"] } ] }

/-- A fresh execution record for the scenarios. -/
def runExec : WorkflowExecution := { execution_id := "e1", workflow_id := "w1" }

/-! ## C1 -/

/-- C1: the claim's scenario does not behave as claimed on this code.  For
the single-step workflow with `retry_count = 2` whose agent invocation
always fails, the engine makes exactly **one** invocation: the step is
reset to PENDING with `retry_attempt = 1` after a single backoff sleep of
`2^1` units, the scan iteration therefore records no newly-terminal step,
and the scheduler immediately fails the workflow with the
circular-dependency message — the step never reaches FAILED and is never
retried.  (The step executor's own retry logic and log message promise a
retry that the scheduler's no-progress check prevents.) -/
theorem C1_retry_starved_by_progress_check :
    (executeWorkflow alwaysFailOracle wfSingleRetry runExec).1.status = WorkflowStatus.failed ∧
    (executeWorkflow alwaysFailOracle wfSingleRetry runExec).1.error_message =
      some "Circular dependency detected in workflow" ∧
    (executeWorkflow alwaysFailOracle wfSingleRetry runExec).1.step_executions.map
      StepExecution.status = [StepStatus.pending] ∧
    (executeWorkflow alwaysFailOracle wfSingleRetry runExec).1.step_executions.map
      StepExecution.retry_attempt = [1] ∧
    (executeWorkflow alwaysFailOracle wfSingleRetry runExec).1.step_executions.map
      StepExecution.error_message = [some "boom"] ∧
    (executeWorkflow alwaysFailOracle wfSingleRetry runExec).2.calls.length = 1 ∧
    (executeWorkflow alwaysFailOracle wfSingleRetry runExec).2.sleeps = [2] := by
  decide

/-! ## C4 -/

theorem lastTen_length_le (l : List WorkflowCheckpoint) : (lastTen l).length ≤ 10 := by
  simp only [lastTen, List.length_drop]
  omega

theorem lastTen_of_le (l : List WorkflowCheckpoint) (h : l.length ≤ 10) : lastTen l = l := by
  simp only [lastTen]
  rw [Nat.sub_eq_zero_of_le h, List.drop_zero]

theorem lastTen_absorb (a b : List WorkflowCheckpoint) :
    lastTen (lastTen a ++ b) = lastTen (a ++ b) := by
  simp only [lastTen, List.length_append, List.length_drop]
  rw [List.drop_append_eq_append_drop, List.drop_append_eq_append_drop, List.drop_drop,
      List.length_drop]
  have h1 : a.length - 10 + (a.length - (a.length - 10) + b.length - 10) =
      a.length + b.length - 10 := by omega
  have h2 : a.length - (a.length - 10) + b.length - 10 - (a.length - (a.length - 10)) =
      a.length + b.length - 10 - a.length := by omega
  rw [h1, h2]

theorem foldl_addCheckpoint (cps : List WorkflowCheckpoint) :
    ∀ init : List WorkflowCheckpoint, init.length ≤ 10 →
      List.foldl addCheckpoint init cps = lastTen (init ++ cps) := by
  induction cps with
  | nil => intro init h; simp [lastTen_of_le init h]
  | cons c cs ih =>
      intro init h
      have h1 : (addCheckpoint init c).length ≤ 10 := lastTen_length_le _
      calc List.foldl addCheckpoint init (c :: cs)
          = List.foldl addCheckpoint (addCheckpoint init c) cs := by rfl
        _ = lastTen (addCheckpoint init c ++ cs) := ih _ h1
        _ = lastTen ((init ++ [c]) ++ cs) := by rw [addCheckpoint, lastTen_absorb]
        _ = lastTen (init ++ (c :: cs)) := by rw [List.append_assoc]; rfl

/-- C4: starting from the empty per-execution list, any sequence of
`create_checkpoint` calls leaves at most 10 checkpoints, and what is
retained is exactly the newest 10 (the `[-10:]` suffix, so eviction is
FIFO); in particular appending an 11th checkpoint to a full list of 10
drops precisely the oldest one. -/
theorem C4_checkpoint_bound_fifo :
    (∀ cps : List WorkflowCheckpoint, (List.foldl addCheckpoint [] cps).length ≤ 10) ∧
    (∀ cps : List WorkflowCheckpoint, List.foldl addCheckpoint [] cps = lastTen cps) ∧
    (∀ (l : List WorkflowCheckpoint) (cp : WorkflowCheckpoint), l.length = 10 →
       addCheckpoint l cp = l.drop 1 ++ [cp]) := by
  refine ⟨fun cps => ?_, fun cps => ?_, fun l cp h => ?_⟩
  · rw [foldl_addCheckpoint cps [] (by simp)]; exact lastTen_length_le _
  · rw [foldl_addCheckpoint cps [] (by simp)]; rfl
  · simp only [addCheckpoint, lastTen, List.length_append, h, List.length_cons,
      List.length_nil]
    rw [List.drop_append_eq_append_drop]
    simp [h]

/-- A concrete checkpoint for the C4 witness. -/
def mkCp (n : ℕ) : WorkflowCheckpoint :=
  { checkpoint_id := toString n, execution_id := "e1",
    checkpoint_type := .workflow_start, context_snapshot := [], step_states := [],
    created_at := n }

/-- Witness for C4: an 11th checkpoint added to a full list of 10 evicts
exactly the oldest. -/
theorem C4_witness :
    addCheckpoint ((List.range 10).map mkCp) (mkCp 10) =
      ((List.range 10).map mkCp).drop 1 ++ [mkCp 10] :=
  C4_checkpoint_bound_fifo.2.2 ((List.range 10).map mkCp) (mkCp 10) (by rfl)

/-! ## C6 and C7 -/

theorem compareOp_of_not_mem (lv rv : Value) (op : String) (h : op ∉ simpleOps) :
    compareOp lv op rv = some true := by
  unfold compareOp
  simp only [simpleOps, List.mem_cons, not_or] at h
  obtain ⟨h1, h2, h3, h4, h5, h6, h7, h8, -⟩ := h
  rw [if_neg (by simpa using h1), if_neg (by simpa using h2), if_neg (by simpa using h3),
      if_neg (by simpa using h4), if_neg (by simpa using h5), if_neg (by simpa using h6),
      if_neg (by simpa using h7), if_neg (by simpa using h8)]

/-- C6 (counterexample): the claim quantifies over *every* condition
string, but a condition containing ` or ` after substitution is delegated
to the complex evaluator, which can return false even though the middle
token is an operator outside the simple-operator set — `"False or False"`
splits into three tokens whose operator `"or"` is not in the set, yet the
result is `False`, not the claimed `true`. -/
theorem C6_counterexample :
    pySplitWs (pyStrip (substituteVariables "False or False" [])) = ["False", "or", "False"] ∧
    "or" ∉ simpleOps ∧
    evaluateCondition "False or False" [] = Value.bool false ∧
    Value.bool false ≠ Value.bool true := by
  decide

/-- C6 (amended): `evaluate_condition` is total and fail-open **provided
the substituted condition contains none of ` and `/` or `/` not ` (those
are delegated to the complex evaluator, see C7)**: then a condition that
does not split into exactly three whitespace-separated tokens yields
`True`; with three tokens, an operator outside
`==`,`!=`,`>`,`<`,`>=`,`<=`,`in`,`contains` yields `True`; and any error
while converting or comparing the resolved operands yields `True`. -/
theorem C6_fail_open_simple (cond : String) (ctx : Context)
    (hnk : (containsSubstr (pyStrip (substituteVariables cond ctx)) " and " ||
            containsSubstr (pyStrip (substituteVariables cond ctx)) " or " ||
            containsSubstr (pyStrip (substituteVariables cond ctx)) " not ") = false) :
    ((pySplitWs (pyStrip (substituteVariables cond ctx))).length ≠ 3 →
       evaluateCondition cond ctx = Value.bool true) ∧
    (∀ l op r, pySplitWs (pyStrip (substituteVariables cond ctx)) = [l, op, r] →
       (op ∉ simpleOps → evaluateCondition cond ctx = Value.bool true) ∧
       (compareOp (resolveMappingValue l ctx) op (resolveMappingValue r ctx) = Option.none →
          evaluateCondition cond ctx = Value.bool true)) := by
  simp only [evaluateCondition, hnk, Bool.false_eq_true, if_false]
  constructor
  · intro hlen
    cases hsplit : pySplitWs (pyStrip (substituteVariables cond ctx)) with
    | nil => rfl
    | cons a t1 =>
        cases t1 with
        | nil => rfl
        | cons b t2 =>
            cases t2 with
            | nil => rfl
            | cons c t3 =>
                cases t3 with
                | nil => exact absurd (by rw [hsplit]; rfl) hlen
                | cons d t4 => rfl
  · intro l op r hsplit
    rw [hsplit]
    dsimp only
    constructor
    · intro hop
      rw [compareOp_of_not_mem _ _ _ hop]
    · intro herr
      rw [herr]

/-- Token whitelist in the words of the claim/spec: `and`, `or`, `not`,
`True`/`False`, the comparison operators, parentheses, and quoted literals.
(Spec-side definition, stated only to refute C7; the source's guard is
character-level — see `complexCharAllowed`.) -/
def claimAllowedToken (t : String) : Bool :=
  t ∈ ["and", "or", "not", "True", "False", "==", "!=", ">", "<", ">=", "<=", "(", ")"] ||
  (startsEndsWith t '"' && t.length ≥ 2) || (startsEndsWith t sqChar && t.length ≥ 2)

/-- C7 (counterexample): the delegated condition `"0 and True"` contains
the token `"0"`, which is outside the claim's allowed-token set, so the
claim requires the evaluator to default to `true`; the code instead passes
the string through the character-level guard and `eval` returns the falsy
value `0` (Python `and` returns its first falsy operand). -/
theorem C7_counterexample :
    containsSubstr "0 and True" " and " = true ∧
    pySplitWs "0 and True" = ["0", "and", "True"] ∧
    claimAllowedToken "0" = false ∧
    evaluateCondition "0 and True" [] = Value.int 0 ∧
    Value.int 0 ≠ Value.bool true := by
  decide

/-- C7 (amended): a condition containing ` and `/` or `/` not ` after
substitution is delegated to `_evaluate_complex_condition`, whose guard is
**character-level**, not token-level: the (re-substituted) string is handed
to the generic evaluator only when every character is alphanumeric or one
of `<`, `>`, `(`, `)`, `"`, `'`, space (so any condition using `==` or `!=`
is rejected by its `=`/`!` characters and yields `True` with a warning,
while arbitrary alphanumeric tokens pass the guard); guard-passing strings
are evaluated generically with any evaluation error defaulting to `True`. -/
theorem C7_complex_guard (cond : String) (ctx : Context)
    (hk : (containsSubstr (pyStrip (substituteVariables cond ctx)) " and " ||
           containsSubstr (pyStrip (substituteVariables cond ctx)) " or " ||
           containsSubstr (pyStrip (substituteVariables cond ctx)) " not ") = true) :
    evaluateCondition cond ctx =
      evaluateComplexCondition (pyStrip (substituteVariables cond ctx)) ctx ∧
    (∀ (s : String) (ctx2 : Context),
       ¬ ((substituteVariables s ctx2).toList.all complexCharAllowed = true) →
       evaluateComplexCondition s ctx2 = Value.bool true) ∧
    (∀ (s : String) (ctx2 : Context),
       (substituteVariables s ctx2).toList.all complexCharAllowed = true →
       evaluateComplexCondition s ctx2 =
         (match pyEvalRestricted (substituteVariables s ctx2) with
          | some v => v
          | Option.none => Value.bool true)) ∧
    complexCharAllowed '=' = false ∧ complexCharAllowed '!' = false := by
  refine ⟨?_, ?_, ?_, by decide, by decide⟩
  · simp only [evaluateCondition, hk, if_true]
  · intro s ctx2 hguard
    unfold evaluateComplexCondition
    rw [if_neg hguard]
  · intro s ctx2 hguard
    unfold evaluateComplexCondition
    rw [if_pos hguard]

/-! ## C9 -/

/-- C9: a step whose condition is set (and non-empty — the engine's
truthiness test on the condition string) and evaluates falsy against the
current context is set SKIPPED with its end time recorded; its input
mapping is not resolved (`input_data` unchanged, hence still unset for the
fresh step execution of a run), the context is untouched, and no agent
invocation is made. -/
theorem C9_condition_false_skips (oracle : AgentOracle) (execution : WorkflowExecution)
    (step : WorkflowStep) (se : StepExecution) (st : EngineState) (c : String)
    (hc : step.condition = some c) (hne : c ≠ "")
    (hfalse : pyTruthy (evaluateCondition c execution.context) = false) :
    (executeStepEnhanced oracle execution step se st).1.status = StepStatus.skipped ∧
    (executeStepEnhanced oracle execution step se st).1.end_time = some (st.clock + 2) ∧
    (executeStepEnhanced oracle execution step se st).1.input_data = se.input_data ∧
    (executeStepEnhanced oracle execution step se st).2.1 = execution.context ∧
    (executeStepEnhanced oracle execution step se st).2.2.calls = st.calls := by
  unfold executeStepEnhanced
  have hcond : (match step.condition with
      | some c => c != "" && !pyTruthy (evaluateCondition c execution.context)
      | Option.none => false) = true := by
    rw [hc]
    dsimp only
    rw [hfalse]
    simp [bne_iff_ne, hne]
  rw [hcond]
  simp [addEvent, utcnow]

/-- Witness for C9: the claim's own instance — condition
`"${flag} == true"` with context `{"flag": false}`. -/
theorem C9_witness :
    (executeStepEnhanced alwaysOkOracle
        { execution_id := "e9", workflow_id := "w9",
          context := [("flag", Value.bool false)] }
        { step_id := "s1", name := "S1", condition := some "$\x7bflag\x7d == true" }
        { step_id := "s1", execution_id := "e9" } {}).1.status = StepStatus.skipped ∧
    (executeStepEnhanced alwaysOkOracle
        { execution_id := "e9", workflow_id := "w9",
          context := [("flag", Value.bool false)] }
        { step_id := "s1", name := "S1", condition := some "$\x7bflag\x7d == true" }
        { step_id := "s1", execution_id := "e9" } {}).1.input_data = Option.none ∧
    (executeStepEnhanced alwaysOkOracle
        { execution_id := "e9", workflow_id := "w9",
          context := [("flag", Value.bool false)] }
        { step_id := "s1", name := "S1", condition := some "$\x7bflag\x7d == true" }
        { step_id := "s1", execution_id := "e9" } {}).2.2.calls = [] := by
  have h := C9_condition_false_skips alwaysOkOracle
    { execution_id := "e9", workflow_id := "w9", context := [("flag", Value.bool false)] }
    { step_id := "s1", name := "S1", condition := some "$\x7bflag\x7d == true" }
    { step_id := "s1", execution_id := "e9" } {} "$\x7bflag\x7d == true"
    (by rfl) (by decide) (by decide)
  exact ⟨h.1, h.2.2.1, h.2.2.2.2⟩

/-! ## C5 -/

theorem dropWhile_length_le (p : Char → Bool) :
    (l : List Char) → (l.dropWhile p).length ≤ l.length
  | [] => by simp [List.dropWhile]
  | c :: cs => by
      simp only [List.dropWhile]
      split
      · exact Nat.le_succ_of_le (dropWhile_length_le p cs)
      · exact Nat.le_refl _

/-- The fuel of `substAux` is immaterial once it covers the list length
(every recursive call strictly shortens the list). -/
theorem substAux_fuel_congr (context : Context) :
    ∀ f1 f2 l, l.length ≤ f1 → l.length ≤ f2 →
      substAux context f1 l = substAux context f2 l := by
  intro f1
  induction f1 with
  | zero =>
      intro f2 l h1 _
      have hl : l = [] := List.length_eq_zero.mp (Nat.le_zero.mp h1)
      subst hl
      cases f2 <;> rfl
  | succ f1 ih =>
      intro f2 l h1 h2
      cases l with
      | nil => cases f2 <;> rfl
      | cons c1 cs1 =>
          cases f2 with
          | zero => simp at h2
          | succ f2' =>
              simp only [substAux]
              cases cs1 with
              | nil => rw [ih f2' [] (by simp) (by simp)]
              | cons c2 rest =>
                  dsimp only
                  simp only [List.length_cons] at h1 h2
                  by_cases hd : c1 = '$' ∧ c2 = '\x7b'
                  · rw [if_pos hd, if_pos hd]
                    cases hdw : rest.dropWhile (fun c => c ≠ '\x7d') with
                    | nil =>
                        simp only
                        rw [ih f2' (c2 :: rest) (by simp only [List.length_cons]; omega)
                          (by simp only [List.length_cons]; omega)]
                    | cons rc tail =>
                        have hlen : tail.length + 1 ≤ rest.length := by
                          have h := dropWhile_length_le (fun c => decide (c ≠ '\x7d')) rest
                          rw [hdw] at h
                          simpa using h
                        simp only
                        by_cases hp : (rest.takeWhile (fun c => c ≠ '\x7d')).isEmpty
                        · rw [if_pos hp, if_pos hp, ih f2' (c2 :: rest)
                            (by simp only [List.length_cons]; omega)
                            (by simp only [List.length_cons]; omega)]
                        · rw [if_neg hp, if_neg hp, ih f2' tail (by omega) (by omega)]
                  · rw [if_neg hd, if_neg hd, ih f2' (c2 :: rest)
                      (by simp only [List.length_cons]; omega)
                      (by simp only [List.length_cons]; omega)]

theorem takeWhile_append_of_all (p : Char → Bool) (pl q : List Char)
    (hp : ∀ c ∈ pl, p c = true) : (pl ++ q).takeWhile p = pl ++ q.takeWhile p := by
  induction pl with
  | nil => rfl
  | cons c cs ih =>
      simp only [List.cons_append, List.takeWhile_cons, hp c (by simp)]
      simp [ih (fun x hx => hp x (by simp [hx]))]

theorem dropWhile_append_of_all (p : Char → Bool) (pl q : List Char)
    (hp : ∀ c ∈ pl, p c = true) : (pl ++ q).dropWhile p = q.dropWhile p := by
  induction pl with
  | nil => rfl
  | cons c cs ih =>
      simp only [List.cons_append, List.dropWhile_cons, hp c (by simp)]
      simp [ih (fun x hx => hp x (by simp [hx]))]

/-- A prefix without `$` is copied verbatim by the substitution scan. -/
theorem substAux_no_dollar (context : Context) :
    ∀ (a b : List Char), (∀ c ∈ a, c ≠ '$') →
      substAux context (a ++ b).length (a ++ b) = a ++ substAux context b.length b := by
  intro a
  induction a with
  | nil => intro b _; rfl
  | cons c a' ih =>
      intro b hc
      have hone : substAux context ((a' ++ b).length + 1) (c :: (a' ++ b)) =
          c :: substAux context (a' ++ b).length (a' ++ b) := by
        cases hab : a' ++ b with
        | nil => simp [substAux]
        | cons c2 rest =>
            simp only [substAux]
            rw [if_neg (fun h => (hc c (by simp)) h.1)]
      simpa only [List.cons_append, List.length_cons] using
        (hone.trans (congrArg (c :: ·) (ih b (fun x hx => hc x (by simp [hx])))))

/-- One `$\x7bpath\x7d` placeholder at the head of the scan is replaced by
`substReplacement` and the scan continues after it. -/
theorem substAux_placeholder (context : Context) (path tail : List Char)
    (hne : path ≠ []) (hnb : ∀ c ∈ path, c ≠ '\x7d') :
    substAux context ('$' :: '\x7b' :: (path ++ '\x7d' :: tail)).length
        ('$' :: '\x7b' :: (path ++ '\x7d' :: tail)) =
      (substReplacement (String.mk path) context).toList ++
        substAux context tail.length tail := by
  have htake : (path ++ '\x7d' :: tail).takeWhile (fun c => c ≠ '\x7d') = path := by
    rw [takeWhile_append_of_all _ path _ (by intro c hcx; simp [hnb c hcx])]
    simp [List.takeWhile_cons]
  have hdrop : (path ++ '\x7d' :: tail).dropWhile (fun c => c ≠ '\x7d') = '\x7d' :: tail := by
    rw [dropWhile_append_of_all _ path _ (by intro c hcx; simp [hnb c hcx])]
    simp [List.dropWhile_cons]
  simp only [substAux, List.length_cons, and_self, if_true, hdrop, htake]
  rw [if_neg (by simp only [List.isEmpty_iff]; exact hne)]
  congr 1
  apply substAux_fuel_congr
  · have ha := List.length_append path ('}' :: tail)
    have hb := List.length_cons '}' tail
    omega
  · exact Nat.le_refl _

/-- C5: mapping-resolution precedence behaves as claimed — `"5"` resolves
to the integer 5, a quoted `"5"` to the string `"5"`, `"${x}"` against
`x = 5` to the string `"5"`; any input containing `${` takes the
substitution branch and returns a string; substitution copies
`$`-free prefixes verbatim and replaces each non-empty brace-free
`${path}` (left to right) by the stringified dot-path lookup, a missing
path (lookup `None`) yielding the literal text `MISSING(path)`. -/
theorem C5_mapping_precedence :
    (∀ ctx, resolveMappingValue "5" ctx = Value.int 5) ∧
    (∀ ctx, resolveMappingValue "\"5\"" ctx = Value.str "5") ∧
    resolveMappingValue "$\x7bx\x7d" [("x", Value.int 5)] = Value.str "5" ∧
    (∀ s ctx, containsSubstr s "$\x7b" = true →
       resolveMappingValue s ctx = Value.str (substituteVariables s ctx)) ∧
    (∀ (a b : String) ctx, (∀ c ∈ a.toList, c ≠ '$') →
       substituteVariables (a ++ b) ctx = a ++ substituteVariables b ctx) ∧
    (∀ (path rest : String) ctx, path ≠ "" → (∀ c ∈ path.toList, c ≠ '\x7d') →
       substituteVariables ("$\x7b" ++ path ++ "\x7d" ++ rest) ctx =
         substReplacement path ctx ++ substituteVariables rest ctx) ∧
    (∀ path ctx, resolveDotNotation path ctx = Value.none →
       substReplacement path ctx = "MISSING(" ++ path ++ ")") ∧
    (∀ path ctx v, resolveDotNotation path ctx = v → v ≠ Value.none →
       substReplacement path ctx = pyStr v) := by
  refine ⟨fun ctx => rfl, fun ctx => rfl, rfl, ?_, ?_, ?_, ?_, ?_⟩
  · intro s ctx h
    unfold resolveMappingValue
    simp [h]
  · intro a b ctx h
    obtain ⟨d⟩ := a
    obtain ⟨e⟩ := b
    show String.mk (substAux ctx ((d ++ e).length) (d ++ e)) =
      String.mk d ++ String.mk (substAux ctx e.length e)
    rw [substAux_no_dollar ctx d e h]
    rfl
  · intro path rest ctx hne hnb
    obtain ⟨p⟩ := path
    obtain ⟨r⟩ := rest
    have hp : p ≠ [] := fun h => hne (show String.mk p = "" by subst h; rfl)
    have hlist : ("$\x7b" ++ String.mk p ++ "\x7d" ++ String.mk r).toList =
        '$' :: '\x7b' :: (p ++ '\x7d' :: r) := by
      simp [String.toList, String.data_append]
    unfold substituteVariables
    rw [hlist, substAux_placeholder ctx p r hp hnb]
    rcases hq : substReplacement (String.mk p) ctx with ⟨q⟩
    rfl
  · intro path ctx h
    unfold substReplacement
    rw [h]
  · intro path ctx v h hv
    unfold substReplacement
    rw [h]
    cases v with
    | none => exact absurd rfl hv
    | bool b => rfl
    | int n => rfl
    | float f => rfl
    | str s => rfl
    | list xs => rfl
    | dict xs => rfl

/-- Witness for C5: instantiates the hypothesis-bearing conjuncts — the
branch fact at `"${x}"`, prefix copying at `"abc" ++ "${x}"`, one
placeholder with a trailing rest, and the `MISSING` rendering for an
absent path. -/
theorem C5_witness :
    resolveMappingValue "$\x7bx\x7d" [] = Value.str (substituteVariables "$\x7bx\x7d" []) ∧
    substituteVariables ("abc" ++ "$\x7bx\x7d") [("x", Value.int 5)] =
      "abc" ++ substituteVariables "$\x7bx\x7d" [("x", Value.int 5)] ∧
    substituteVariables ("$\x7b" ++ "y" ++ "\x7d" ++ "!") [] =
      substReplacement "y" [] ++ substituteVariables "!" [] ∧
    substReplacement "y" [] = "MISSING(" ++ "y" ++ ")" := by
  refine ⟨?_, ?_, ?_, ?_⟩
  · exact C5_mapping_precedence.2.2.2.1 "$\x7bx\x7d" [] (by decide)
  · exact C5_mapping_precedence.2.2.2.2.1 "abc" "$\x7bx\x7d" [("x", Value.int 5)] (by decide)
  · exact C5_mapping_precedence.2.2.2.2.2.1 "y" "!" [] (by decide) (by decide)
  · exact C5_mapping_precedence.2.2.2.2.2.2.1 "y" [] (by decide)

/-- Witness for C6: a malformed simple condition (unknown operator `~`)
evaluates to `True`. -/
theorem C6_witness : evaluateCondition "a ~ b" [] = Value.bool true :=
  ((C6_fail_open_simple "a ~ b" [] (by decide)).2 "a" "~" "b" (by decide)).1 (by decide)

/-- Witness for C7: a delegated condition built only from the claim's
allowed tokens (`1 == 2 and True`) is rejected by the character-level guard
(because of `=`) and defaults to `True` instead of evaluating to `False`. -/
theorem C7_witness : evaluateCondition "1 == 2 and True" [] = Value.bool true := by
  have h := C7_complex_guard "1 == 2 and True" [] (by decide)
  rw [h.1]
  exact h.2.1 (pyStrip (substituteVariables "1 == 2 and True" [])) [] (by decide)

/-! ## C3 -/

/-- The steps "moved out of COMPLETED" by a rollback: currently COMPLETED
and recorded in the snapshot with a non-COMPLETED target status. -/
def movedOutOfCompleted (stepStates : List (String × StepStatus)) (se : StepExecution) : Bool :=
  se.status == StepStatus.completed &&
    (match assocGet stepStates se.step_id with
     | some t => t != StepStatus.completed
     | Option.none => false)

theorem rollbackStep_fst_step_id (stepStates : List (String × StepStatus))
    (se : StepExecution) : (rollbackStep stepStates se).1.step_id = se.step_id := by
  unfold rollbackStep
  cases assocGet stepStates se.step_id with
  | none => rfl
  | some target =>
      dsimp only
      split <;> rfl

theorem rollbackStep_snd (stepStates : List (String × StepStatus)) (se : StepExecution) :
    (rollbackStep stepStates se).2 = movedOutOfCompleted stepStates se := by
  unfold rollbackStep movedOutOfCompleted
  cases assocGet stepStates se.step_id with
  | none => simp
  | some target => rfl

/-- C3: a successful rollback to a retained checkpoint restores the
execution's context to the snapshot, sets the workflow RUNNING, gives
every step recorded in the snapshot exactly its recorded status (resetting
start/end times, output and error when that status is PENDING) while steps
absent from the snapshot are untouched, and fires the rollback callback
exactly for the steps moved out of COMPLETED. -/
theorem C3_rollback_restores (store : List (String × List WorkflowCheckpoint))
    (executionId checkpointId : String) (execution : WorkflowExecution)
    (cps : List WorkflowCheckpoint) (checkpoint : WorkflowCheckpoint)
    (hstore : assocGet store executionId = some cps)
    (hfind : cps.find? (fun cp => cp.checkpoint_id == checkpointId) = some checkpoint) :
    ∃ exec' rolled,
      rollbackToCheckpoint store executionId checkpointId (some execution) =
        some (exec', rolled) ∧
      exec'.context = checkpoint.context_snapshot ∧
      exec'.status = WorkflowStatus.running ∧
      exec'.step_executions.length = execution.step_executions.length ∧
      (∀ i se, execution.step_executions.get? i = some se →
         ∃ se', exec'.step_executions.get? i = some se' ∧
           se'.step_id = se.step_id ∧
           (assocGet checkpoint.step_states se.step_id = Option.none → se' = se) ∧
           (∀ t, assocGet checkpoint.step_states se.step_id = some t →
              se'.status = t ∧
              (t = StepStatus.pending →
                 se'.start_time = Option.none ∧ se'.end_time = Option.none ∧
                 se'.output_data = Option.none ∧ se'.error_message = Option.none))) ∧
      rolled = (execution.step_executions.filter
          (movedOutOfCompleted checkpoint.step_states)).map StepExecution.step_id := by
  have hrb : rollbackToCheckpoint store executionId checkpointId (some execution) =
      some ({ execution with
          context := checkpoint.context_snapshot,
          step_executions := (execution.step_executions.map
            (rollbackStep checkpoint.step_states)).map Prod.fst,
          status := WorkflowStatus.running },
        ((execution.step_executions.map (rollbackStep checkpoint.step_states)).filter
          (fun p => p.2)).map (fun p => p.1.step_id)) := by
    simp only [rollbackToCheckpoint, hstore, hfind]
  refine ⟨_, _, hrb, rfl, rfl, by simp, ?_, ?_⟩
  · intro i se hget
    refine ⟨(rollbackStep checkpoint.step_states se).1, ?_, ?_, ?_, ?_⟩
    · simp only [List.get?_map, hget, Option.map_some']
    · exact rollbackStep_fst_step_id _ _
    · intro hnone
      simp only [rollbackStep, hnone]
    · intro t ht
      simp only [rollbackStep, ht]
      by_cases hpend : t = StepStatus.pending
      · subst hpend
        simp
      · rw [if_neg (by simpa using hpend)]
        exact ⟨rfl, fun h => absurd h hpend⟩
  · induction execution.step_executions with
    | nil => rfl
    | cons se rest ih =>
        simp only [List.map_cons, List.filter_cons, rollbackStep_snd]
        cases hmoved : movedOutOfCompleted checkpoint.step_states se with
        | false => simpa using ih
        | true => simpa [rollbackStep_fst_step_id] using ih

/-- Concrete checkpoint for the C3 witness: step `A` recorded PENDING,
step `B` recorded COMPLETED. -/
def cpW : WorkflowCheckpoint :=
  { checkpoint_id := "cp1", execution_id := "e1", checkpoint_type := .step_complete,
    step_id := some "A",
    context_snapshot := [("k", Value.int 1)],
    step_states := [("A", StepStatus.pending), ("B", StepStatus.completed)] }

/-- Concrete execution for the C3 witness: `A` and `B` COMPLETED (so `A`
is moved out of COMPLETED, `B` is not), `C` absent from the snapshot. -/
def execW : WorkflowExecution :=
  { execution_id := "e1", workflow_id := "w1", status := .running,
    context := [("k", Value.int 2), ("x", Value.str "s")],
    step_executions :=
      [ { step_id := "A", execution_id := "e1", status := .completed,
          start_time := some 1, end_time := some 2,
          output_data := some [("r", Value.int 1)] },
        { step_id := "B", execution_id := "e1", status := .completed },
        { step_id := "C", execution_id := "e1", status := .running } ] }

/-- Witness for C3: the rollback theorem applied to a one-checkpoint store
and a three-step execution. -/
theorem C3_witness :
    ∃ exec' rolled,
      rollbackToCheckpoint [("e1", [cpW])] "e1" "cp1" (some execW) = some (exec', rolled) ∧
      exec'.context = cpW.context_snapshot ∧
      exec'.status = WorkflowStatus.running ∧
      exec'.step_executions.length = execW.step_executions.length ∧
      (∀ i se, execW.step_executions.get? i = some se →
         ∃ se', exec'.step_executions.get? i = some se' ∧
           se'.step_id = se.step_id ∧
           (assocGet cpW.step_states se.step_id = Option.none → se' = se) ∧
           (∀ t, assocGet cpW.step_states se.step_id = some t →
              se'.status = t ∧
              (t = StepStatus.pending →
                 se'.start_time = Option.none ∧ se'.end_time = Option.none ∧
                 se'.output_data = Option.none ∧ se'.error_message = Option.none))) ∧
      rolled = (execW.step_executions.filter
          (movedOutOfCompleted cpW.step_states)).map StepExecution.step_id :=
  C3_rollback_restores [("e1", [cpW])] "e1" "cp1" execW [cpW] cpW (by rfl) (by rfl)

/-! ## Scheduler invariants (C2, C8, C10) -/

def stepIds (wf : WorkflowDefinition) : List String := wf.steps.map WorkflowStep.step_id

def execIds (exec : WorkflowExecution) : List String :=
  exec.step_executions.map StepExecution.step_id

/-- Events the scheduler may legitimately emit: a `runAttempt` is good when
every dependency of the attempted step already has a terminal status in the
recorded snapshot; checkpoint events are always good. -/
def goodEvent : TraceEvent → Prop
  | .runAttempt step sts =>
      ∀ dep ∈ step.depends_on, ∃ s, assocGet sts dep = some s ∧ isTerminal s = true
  | .checkpointCreated _ _ => True

/-- Invariant of the scheduler loop: the step executions mirror the
definition's step ids, the terminal set is duplicate-free, mentions only
real step ids, and every id in it maps (first-match) to a terminal step
execution. -/
structure LoopInv (wf : WorkflowDefinition) (exec : WorkflowExecution)
    (completed : List String) : Prop where
  ids_eq : execIds exec = stepIds wf
  nodup : completed.Nodup
  sub : ∀ sid ∈ completed, sid ∈ stepIds wf
  term : ∀ sid ∈ completed, ∃ se, getStepExecution exec.step_executions sid = some se ∧
    isTerminal se.status = true

theorem executeStepEnhanced_step_id (o : AgentOracle) (e : WorkflowExecution)
    (s : WorkflowStep) (se : StepExecution) (st : EngineState) :
    (executeStepEnhanced o e s se st).1.step_id = se.step_id := by
  unfold executeStepEnhanced
  dsimp only
  split
  · rfl
  · split
    · rfl
    · split
      · rfl
      · rfl

/-- The step executor only appends checkpoint events to the trace. -/
theorem executeStepEnhanced_events (o : AgentOracle) (e : WorkflowExecution)
    (s : WorkflowStep) (se : StepExecution) (st : EngineState) :
    ∃ evs, (executeStepEnhanced o e s se st).2.2.events = st.events ++ evs ∧
      ∀ ev ∈ evs, goodEvent ev := by
  unfold executeStepEnhanced
  dsimp only
  split
  · exact ⟨[.checkpointCreated .step_start (some s.step_id)], rfl, by
      intro ev hev; simp at hev; subst hev; trivial⟩
  · split
    · refine ⟨[.checkpointCreated .step_start (some s.step_id),
        .checkpointCreated .step_complete (some s.step_id)], ?_, ?_⟩
      · simp [addEvent, utcnow, callAgent]
      · intro ev hev
        simp only [List.mem_cons, List.not_mem_nil, or_false] at hev
        rcases hev with hev | hev <;> subst hev <;> trivial
    · split
      · exact ⟨[.checkpointCreated .step_start (some s.step_id)], rfl, by
          intro ev hev; simp at hev; subst hev; trivial⟩
      · exact ⟨[.checkpointCreated .step_start (some s.step_id)], rfl, by
          intro ev hev; simp at hev; subst hev; trivial⟩

theorem getStepExecution_set_self (l : List StepExecution) (sid : String)
    (se se' : StepExecution) (hfind : getStepExecution l sid = some se)
    (hid : se'.step_id = sid) :
    getStepExecution (setStepExecution l sid se') sid = some se' := by
  induction l with
  | nil => simp [getStepExecution] at hfind
  | cons a rest ih =>
      by_cases ha : a.step_id == sid
      · simp only [setStepExecution, ha, if_true]
        simp [getStepExecution, List.find?, hid]
      · simp only [setStepExecution, ha, Bool.false_eq_true, if_false]
        simp only [getStepExecution, List.find?, ha] at hfind ⊢
        exact ih hfind

theorem getStepExecution_set_other (l : List StepExecution) (sid sid2 : String)
    (se' : StepExecution) (hne : sid2 ≠ sid) (hid : se'.step_id = sid) :
    getStepExecution (setStepExecution l sid se') sid2 = getStepExecution l sid2 := by
  induction l with
  | nil => rfl
  | cons a rest ih =>
      by_cases ha : a.step_id == sid
      · simp only [setStepExecution, ha, if_true]
        have ha' : a.step_id = sid := by simpa using ha
        have h1 : (se'.step_id == sid2) = false := by
          simp [hid]; exact fun h => hne h.symm
        have h2 : (a.step_id == sid2) = false := by
          simp [ha']; exact fun h => hne h.symm
        simp [getStepExecution, List.find?, h1, h2]
      · simp only [setStepExecution, ha, Bool.false_eq_true, if_false]
        simp only [getStepExecution, List.find?]
        cases hb : a.step_id == sid2
        · exact ih
        · rfl

theorem setStepExecution_map_id (l : List StepExecution) (sid : String)
    (se' : StepExecution) (hid : se'.step_id = sid) :
    (setStepExecution l sid se').map StepExecution.step_id =
      l.map StepExecution.step_id := by
  induction l with
  | nil => rfl
  | cons a rest ih =>
      by_cases ha : a.step_id == sid
      · have ha' : a.step_id = sid := by simpa using ha
        simp [setStepExecution, ha, hid, ha']
      · simp only [setStepExecution, ha, Bool.false_eq_true, if_false, List.map_cons]
        rw [ih]

theorem assocGet_statuses (l : List StepExecution) (sid : String) (se : StepExecution)
    (h : getStepExecution l sid = some se) :
    assocGet (l.map (fun x => (x.step_id, x.status))) sid = some se.status := by
  induction l with
  | nil => simp [getStepExecution] at h
  | cons a rest ih =>
      simp only [getStepExecution, List.find?] at h
      cases ha : a.step_id == sid with
      | true =>
          rw [ha] at h
          simp only [Option.some.injEq] at h
          subst h
          simp [assocGet, ha]
      | false =>
          rw [ha] at h
          simp only [List.map_cons, assocGet, ha]
          exact ih h

theorem getStepExecution_mem_of_nodup (l : List StepExecution)
    (hnd : (l.map StepExecution.step_id).Nodup) (se : StepExecution) (hse : se ∈ l) :
    getStepExecution l se.step_id = some se := by
  induction l with
  | nil => simp at hse
  | cons a rest ih =>
      rcases List.mem_cons.mp hse with hse' | hse'
      · subst hse'
        simp [getStepExecution, List.find?]
      · have hane : a.step_id ≠ se.step_id := by
          intro heq
          have hmem : se.step_id ∈ rest.map StepExecution.step_id :=
            List.mem_map_of_mem StepExecution.step_id hse'
          rw [List.map_cons, List.nodup_cons] at hnd
          exact hnd.1 (heq ▸ hmem)
        have hab : (a.step_id == se.step_id) = false := by simpa using hane
        simp only [getStepExecution, List.find?, hab]
        exact ih (by rw [List.map_cons, List.nodup_cons] at hnd; exact hnd.2) hse'

theorem nodup_subset_length_le {l L : List String} (h1 : l.Nodup)
    (h2 : ∀ x ∈ l, x ∈ L) : l.length ≤ L.dedup.length := by
  have hc : l.toFinset.card = l.length := List.toFinset_card_of_nodup h1
  have hsub : l.toFinset ⊆ L.toFinset := fun x hx =>
    List.mem_toFinset.mpr (h2 x (List.mem_toFinset.mp hx))
  have hcard := Finset.card_le_card hsub
  rw [hc, List.card_toFinset] at hcard
  exact hcard

theorem mem_of_nodup_subset_length {l L : List String} (h1 : l.Nodup)
    (h2 : ∀ x ∈ l, x ∈ L) (h3 : L.length ≤ l.length) :
    ∀ x ∈ L, x ∈ l := by
  have hsub : l.toFinset ⊆ L.toFinset := fun x hx =>
    List.mem_toFinset.mpr (h2 x (List.mem_toFinset.mp hx))
  have hcard : L.toFinset.card ≤ l.toFinset.card := by
    rw [List.toFinset_card_of_nodup h1, List.card_toFinset]
    exact le_trans (List.Sublist.length_le (List.dedup_sublist L)) h3
  have heq := Finset.eq_of_subset_of_card_le hsub hcard
  intro x hx
  have : x ∈ L.toFinset := List.mem_toFinset.mpr hx
  rw [← heq] at this
  exact List.mem_toFinset.mp this

/-- The scheduler's terminal set never shrinks during a scan pass. -/
theorem scanPass_completed_le (oracle : AgentOracle) :
    ∀ (steps : List WorkflowStep) (exec : WorkflowExecution) (st : EngineState)
      (completed : List String) (progress : Bool),
      completed.length ≤ (scanPass oracle steps exec st completed progress).completed.length := by
  intro steps
  induction steps with
  | nil => intro exec st completed progress; exact Nat.le_refl _
  | cons step rest ih =>
      intro exec st completed progress
      simp only [scanPass]
      split
      · exact ih _ _ _ _
      · split
        · split
          · exact ih _ _ _ _
          · split
            · split
              · split
                · simp
                · exact le_trans (by simp) (ih _ _ _ _)
              · exact ih _ _ _ _
            · exact ih _ _ _ _
        · exact ih _ _ _ _

/-- One scan pass preserves the loop invariant; its terminal set only
grows (strictly when it reports progress); it leaves the workflow status
unchanged unless it fails it; and it only appends good events. -/
theorem scanPass_spec (oracle : AgentOracle) (wf : WorkflowDefinition) :
    ∀ (steps : List WorkflowStep) (exec : WorkflowExecution) (st : EngineState)
      (completed : List String) (progress : Bool),
      (∀ s ∈ steps, s.step_id ∈ stepIds wf) →
      LoopInv wf exec completed →
      LoopInv wf (scanPass oracle steps exec st completed progress).exec
        (scanPass oracle steps exec st completed progress).completed ∧
      ((scanPass oracle steps exec st completed progress).progress = true →
        progress = true ∨
          completed.length <
            (scanPass oracle steps exec st completed progress).completed.length) ∧
      ((scanPass oracle steps exec st completed progress).exec.status = exec.status ∨
        (scanPass oracle steps exec st completed progress).exec.status =
          WorkflowStatus.failed) ∧
      (∀ ev ∈ (scanPass oracle steps exec st completed progress).st.events,
        ev ∈ st.events ∨ goodEvent ev) := by
  intro steps
  induction steps with
  | nil =>
      intro exec st completed progress _ hInv
      exact ⟨hInv, fun h => Or.inl h, Or.inl rfl, fun ev hev => Or.inl hev⟩
  | cons step rest ih =>
      intro exec st completed progress hsteps hInv
      have hrest : ∀ s ∈ rest, s.step_id ∈ stepIds wf :=
        fun s hs => hsteps s (by simp [hs])
      by_cases hcont : completed.contains step.step_id
      · have heq : scanPass oracle (step :: rest) exec st completed progress =
            scanPass oracle rest exec st completed progress := by
          simp only [scanPass, hcont, if_true]
        rw [heq]
        exact ih exec st completed progress hrest hInv
      · rw [Bool.not_eq_true] at hcont
        by_cases hdeps : dependenciesSatisfied step completed
        · cases hg : getStepExecution exec.step_executions step.step_id with
          | none =>
              have heq : scanPass oracle (step :: rest) exec st completed progress =
                  scanPass oracle rest exec st completed progress := by
                simp only [scanPass, hcont, Bool.false_eq_true, if_false, hdeps, if_true, hg]
              rw [heq]
              exact ih exec st completed progress hrest hInv
          | some se =>
              by_cases hpend : se.status == StepStatus.pending
              · have hstepnotin : step.step_id ∉ completed := by simpa using hcont
                rcases hr : executeStepEnhanced oracle exec step se
                    (addEvent st (TraceEvent.runAttempt step (statusesOf exec)))
                  with ⟨se', ctx', st2⟩
                have hsid : se.step_id = step.step_id := by
                  have h := List.find?_some hg
                  simpa using h
                have hse'id : se'.step_id = step.step_id := by
                  have h := executeStepEnhanced_step_id oracle exec step se
                    (addEvent st (TraceEvent.runAttempt step (statusesOf exec)))
                  rw [hr] at h
                  exact h.trans hsid
                have hgood : goodEvent (TraceEvent.runAttempt step (statusesOf exec)) := by
                  intro dep hdep
                  have hdc : completed.contains dep = true := by
                    have h := (List.all_eq_true.mp hdeps) dep hdep
                    simpa using h
                  have hdmem : dep ∈ completed := by simpa using hdc
                  obtain ⟨sed, hsed, hsterm⟩ := hInv.term dep hdmem
                  exact ⟨sed.status, assocGet_statuses exec.step_executions dep sed hsed,
                    hsterm⟩
                obtain ⟨evs, hst2events, hevsgood⟩ : ∃ evs,
                    st2.events = (addEvent st
                      (TraceEvent.runAttempt step (statusesOf exec))).events ++ evs ∧
                    ∀ ev ∈ evs, goodEvent ev := by
                  have h := executeStepEnhanced_events oracle exec step se
                    (addEvent st (TraceEvent.runAttempt step (statusesOf exec)))
                  rw [hr] at h
                  exact h
                have hst2mem : ∀ ev ∈ st2.events, ev ∈ st.events ∨ goodEvent ev := by
                  intro ev hev
                  rw [hst2events] at hev
                  rcases List.mem_append.mp hev with hev | hev
                  · rcases List.mem_append.mp hev with hev | hev
                    · exact Or.inl hev
                    · simp only [List.mem_singleton] at hev
                      subst hev
                      exact Or.inr hgood
                  · exact Or.inr (hevsgood ev hev)
                have hids1 : execIds { exec with
                    step_executions :=
                      setStepExecution exec.step_executions step.step_id se',
                    context := ctx' } = stepIds wf := by
                  show (setStepExecution exec.step_executions step.step_id se').map
                    StepExecution.step_id = stepIds wf
                  rw [setStepExecution_map_id exec.step_executions step.step_id se' hse'id]
                  exact hInv.ids_eq
                have hterm1 : ∀ sid ∈ completed,
                    ∃ sex, getStepExecution (setStepExecution exec.step_executions
                      step.step_id se') sid = some sex ∧ isTerminal sex.status = true := by
                  intro sid hsid2
                  obtain ⟨sex, hsex, hsterm⟩ := hInv.term sid hsid2
                  refine ⟨sex, ?_, hsterm⟩
                  rw [getStepExecution_set_other exec.step_executions step.step_id sid se'
                    (fun h => hstepnotin (h ▸ hsid2)) hse'id]
                  exact hsex
                by_cases hterm : isTerminal se'.status
                · have hInv2 : LoopInv wf { exec with
                      step_executions :=
                        setStepExecution exec.step_executions step.step_id se',
                      context := ctx' } (completed ++ [step.step_id]) := by
                    refine ⟨hids1, ?_, ?_, ?_⟩
                    · rw [List.nodup_append]
                      exact ⟨hInv.nodup, List.nodup_singleton _, fun a ha hb =>
                        hstepnotin (by simp only [List.mem_singleton] at hb; exact hb ▸ ha)⟩
                    · intro sid hsid2
                      rcases List.mem_append.mp hsid2 with h | h
                      · exact hInv.sub sid h
                      · simp only [List.mem_singleton] at h
                        subst h
                        exact hsteps step (by simp)
                    · intro sid hsid2
                      rcases List.mem_append.mp hsid2 with h | h
                      · exact hterm1 sid h
                      · simp only [List.mem_singleton] at h
                        subst h
                        exact ⟨se', getStepExecution_set_self exec.step_executions
                          step.step_id se se' hg hse'id, hterm⟩
                  by_cases hfail : (se'.status == StepStatus.failed &&
                      decide (step.retry_count ≤ se'.retry_attempt)) = true
                  · have heq : scanPass oracle (step :: rest) exec st completed progress =
                        ⟨{ exec with
                            step_executions :=
                              setStepExecution exec.step_executions step.step_id se',
                            context := ctx',
                            status := WorkflowStatus.failed,
                            error_message := some ("Step " ++ step.name ++ " failed: " ++
                              optionStr se'.error_message) },
                          st2, completed ++ [step.step_id], true⟩ := by
                      simp only [scanPass, hcont, Bool.false_eq_true, if_false, hdeps,
                        if_true, hg, hpend, hr, hterm, hfail]
                    rw [heq]
                    exact ⟨⟨hInv2.ids_eq, hInv2.nodup, hInv2.sub, hInv2.term⟩,
                      fun _ => Or.inr (by simp), Or.inr rfl, hst2mem⟩
                  · rw [Bool.not_eq_true] at hfail
                    have heq : scanPass oracle (step :: rest) exec st completed progress =
                        scanPass oracle rest { exec with
                            step_executions :=
                              setStepExecution exec.step_executions step.step_id se',
                            context := ctx' } st2 (completed ++ [step.step_id]) true := by
                      simp only [scanPass, hcont, Bool.false_eq_true, if_false, hdeps,
                        if_true, hg, hpend, hr, hterm, hfail]
                    rw [heq]
                    obtain ⟨ha, hb, hc, hd⟩ := ih _ st2 (completed ++ [step.step_id]) true
                      hrest hInv2
                    refine ⟨ha, ?_, hc, ?_⟩
                    · intro _
                      right
                      have hlen : completed.length <
                          (completed ++ [step.step_id]).length := by simp
                      have hmono := scanPass_completed_le oracle rest
                        { exec with
                            step_executions :=
                              setStepExecution exec.step_executions step.step_id se',
                            context := ctx' } st2 (completed ++ [step.step_id]) true
                      omega
                    · intro ev hev
                      rcases hd ev hev with h | h
                      · exact hst2mem ev h
                      · exact Or.inr h
                · rw [Bool.not_eq_true] at hterm
                  have hInv2 : LoopInv wf { exec with
                      step_executions :=
                        setStepExecution exec.step_executions step.step_id se',
                      context := ctx' } completed :=
                    ⟨hids1, hInv.nodup, hInv.sub, hterm1⟩
                  have heq : scanPass oracle (step :: rest) exec st completed progress =
                      scanPass oracle rest { exec with
                          step_executions :=
                            setStepExecution exec.step_executions step.step_id se',
                          context := ctx' } st2 completed progress := by
                    simp only [scanPass, hcont, Bool.false_eq_true, if_false, hdeps,
                      if_true, hg, hpend, hr, hterm]
                  rw [heq]
                  obtain ⟨ha, hb, hc, hd⟩ := ih _ st2 completed progress hrest hInv2
                  refine ⟨ha, hb, hc, ?_⟩
                  intro ev hev
                  rcases hd ev hev with h | h
                  · exact hst2mem ev h
                  · exact Or.inr h
              · have heq : scanPass oracle (step :: rest) exec st completed progress =
                    scanPass oracle rest exec st completed progress := by
                  simp only [scanPass, hcont, Bool.false_eq_true, if_false, hdeps,
                    if_true, hg, hpend]
                rw [heq]
                exact ih exec st completed progress hrest hInv
        · have heq : scanPass oracle (step :: rest) exec st completed progress =
              scanPass oracle rest exec st completed progress := by
            simp only [scanPass, hcont, Bool.false_eq_true, if_false]
            rw [if_neg hdeps]
          rw [heq]
          exact ih exec st completed progress hrest hInv

theorem nodup_of_dedup_length {l : List String} (h : l.dedup.length = l.length) :
    l.Nodup := by
  have hsub := List.dedup_sublist l
  have heq := List.Sublist.eq_of_length hsub h
  rw [← heq]
  exact List.nodup_dedup l

/-- The scan loop preserves the invariant, only fails the status (never
otherwise changes it), only appends good events, and — when it does not
fail — must have terminalized at least as many ids as there are steps,
provided the fuel exceeds the number of distinct step ids still missing. -/
theorem runLoop_spec (oracle : AgentOracle) (wf : WorkflowDefinition)
    (hsteps : ∀ s ∈ wf.steps, s.step_id ∈ stepIds wf) :
    ∀ (fuel : ℕ) (exec : WorkflowExecution) (st : EngineState) (completed : List String),
      LoopInv wf exec completed →
      LoopInv wf (runLoop oracle wf fuel exec st completed).1
        (runLoop oracle wf fuel exec st completed).2.2 ∧
      ((runLoop oracle wf fuel exec st completed).1.status = exec.status ∨
        (runLoop oracle wf fuel exec st completed).1.status = WorkflowStatus.failed) ∧
      (∀ ev ∈ (runLoop oracle wf fuel exec st completed).2.1.events,
        ev ∈ st.events ∨ goodEvent ev) ∧
      ((runLoop oracle wf fuel exec st completed).1.status ≠ WorkflowStatus.failed →
        (stepIds wf).dedup.length < fuel + completed.length →
        wf.steps.length ≤ (runLoop oracle wf fuel exec st completed).2.2.length) := by
  intro fuel
  induction fuel with
  | zero =>
      intro exec st completed hInv
      refine ⟨hInv, Or.inl rfl, fun ev hev => Or.inl hev, ?_⟩
      intro _ hlt
      have hle := nodup_subset_length_le hInv.nodup hInv.sub
      omega
  | succ fuel ihf =>
      intro exec st completed hInv
      by_cases hguard : completed.length < wf.steps.length
      · obtain ⟨sInv, sProg, sStat, sEv⟩ :=
          scanPass_spec oracle wf wf.steps exec st completed false hsteps hInv
        cases hfs : (scanPass oracle wf.steps exec st completed false).exec.status ==
            WorkflowStatus.failed with
        | true =>
            have heq : runLoop oracle wf (fuel + 1) exec st completed =
                ((scanPass oracle wf.steps exec st completed false).exec,
                 (scanPass oracle wf.steps exec st completed false).st,
                 (scanPass oracle wf.steps exec st completed false).completed) := by
              simp only [runLoop, if_pos hguard, hfs, if_true]
            rw [heq]
            have hfailed : (scanPass oracle wf.steps exec st completed false).exec.status =
                WorkflowStatus.failed := by simpa using hfs
            exact ⟨sInv, Or.inr hfailed, sEv, fun hne _ => absurd hfailed hne⟩
        | false =>
            cases hpr : (scanPass oracle wf.steps exec st completed false).progress with
            | true =>
                have heq : runLoop oracle wf (fuel + 1) exec st completed =
                    runLoop oracle wf fuel
                      (scanPass oracle wf.steps exec st completed false).exec
                      (scanPass oracle wf.steps exec st completed false).st
                      (scanPass oracle wf.steps exec st completed false).completed := by
                  simp only [runLoop, if_pos hguard, hfs, Bool.false_eq_true, if_false,
                    hpr, if_true]
                rw [heq]
                obtain ⟨rInv, rStat, rEv, rLen⟩ := ihf
                  (scanPass oracle wf.steps exec st completed false).exec
                  (scanPass oracle wf.steps exec st completed false).st
                  (scanPass oracle wf.steps exec st completed false).completed sInv
                refine ⟨rInv, ?_, ?_, ?_⟩
                · rcases rStat with h | h
                  · rw [h]; exact sStat
                  · exact Or.inr h
                · intro ev hev
                  rcases rEv ev hev with h | h
                  · exact sEv ev h
                  · exact Or.inr h
                · intro hne hlt
                  apply rLen hne
                  have hgrow := sProg hpr
                  rcases hgrow with h | h
                  · exact absurd h (by simp)
                  · omega
            | false =>
                have heq : runLoop oracle wf (fuel + 1) exec st completed =
                    ({ (scanPass oracle wf.steps exec st completed false).exec with
                        status := WorkflowStatus.failed,
                        error_message := some "Circular dependency detected in workflow" },
                     (scanPass oracle wf.steps exec st completed false).st,
                     (scanPass oracle wf.steps exec st completed false).completed) := by
                  simp only [runLoop, if_pos hguard, hfs, Bool.false_eq_true, if_false, hpr]
                rw [heq]
                exact ⟨⟨sInv.ids_eq, sInv.nodup, sInv.sub, sInv.term⟩, Or.inr rfl, sEv,
                  fun hne _ => absurd rfl hne⟩
      · have heq : runLoop oracle wf (fuel + 1) exec st completed =
            (exec, st, completed) := by
          simp only [runLoop, if_neg hguard]
        rw [heq]
        exact ⟨hInv, Or.inl rfl, fun ev hev => Or.inl hev,
          fun _ _ => Nat.le_of_not_lt hguard⟩

/-- Unfolding of `execute_workflow` in terms of the scan loop: initial checkpoint event
and clock tick, initialization of the run record, the loop with budget
`2 × step_count`, then finalization and the closing timestamp. -/
theorem executeWorkflow_runLoop (oracle : AgentOracle) (wf : WorkflowDefinition)
    (execution : WorkflowExecution) :
    executeWorkflow oracle wf execution =
      (fun r : WorkflowExecution × EngineState × List String =>
        ({ (if r.1.status == WorkflowStatus.running
             then { r.1 with status := WorkflowStatus.completed } else r.1) with
            end_time := some r.2.1.clock },
         { r.2.1 with clock := r.2.1.clock + 1 }))
        (runLoop oracle wf (wf.steps.length * 2)
          { execution with
              status := WorkflowStatus.running,
              start_time := some 0,
              step_executions := wf.steps.map (fun s =>
                { step_id := s.step_id, execution_id := execution.execution_id }),
              context := ctxUpdate execution.context execution.input_data }
          { clock := 1, calls := [], sleeps := [],
            events := [TraceEvent.checkpointCreated CheckpointType.workflow_start
              Option.none] } []) := rfl

/-- The freshly initialized run record satisfies the loop invariant with an
empty terminal set. -/
theorem initial_LoopInv (wf : WorkflowDefinition) (exec0 : WorkflowExecution) :
    LoopInv wf
      { exec0 with
          status := WorkflowStatus.running,
          start_time := some 0,
          step_executions := wf.steps.map (fun s =>
            { step_id := s.step_id, execution_id := exec0.execution_id }),
          context := ctxUpdate exec0.context exec0.input_data } [] := by
  refine ⟨?_, List.nodup_nil, ?_, ?_⟩
  · show (wf.steps.map _).map _ = stepIds wf
    rw [List.map_map]
    rfl
  · intro sid h
    exact absurd h (List.not_mem_nil sid)
  · intro sid h
    exact absurd h (List.not_mem_nil sid)

/-- C10: whenever `execute_workflow` finalizes an execution as COMPLETED,
every one of its step executions carries a terminal status — the scan loop
cannot exhaust its `2 × step_count` budget while still RUNNING, because an
iteration either terminalizes a fresh step id (and there are at most
`step_count` of those) or ends the workflow FAILED. -/
theorem C10_completed_implies_terminal (oracle : AgentOracle) (wf : WorkflowDefinition)
    (exec0 : WorkflowExecution)
    (hc : (executeWorkflow oracle wf exec0).1.status = WorkflowStatus.completed) :
    ∀ se ∈ (executeWorkflow oracle wf exec0).1.step_executions,
      isTerminal se.status = true := by
  have hsteps : ∀ s ∈ wf.steps, s.step_id ∈ stepIds wf :=
    fun s hs => List.mem_map_of_mem WorkflowStep.step_id hs
  obtain ⟨rInv, rStat, rEv, rLen⟩ := runLoop_spec oracle wf hsteps
    (wf.steps.length * 2)
    { exec0 with
        status := WorkflowStatus.running,
        start_time := some 0,
        step_executions := wf.steps.map (fun s =>
          { step_id := s.step_id, execution_id := exec0.execution_id }),
        context := ctxUpdate exec0.context exec0.input_data }
    { clock := 1, calls := [], sleeps := [],
      events := [TraceEvent.checkpointCreated CheckpointType.workflow_start Option.none] }
    [] (initial_LoopInv wf exec0)
  rw [executeWorkflow_runLoop] at hc ⊢
  dsimp only at hc rStat rInv rLen ⊢
  cases hfin : (runLoop oracle wf (wf.steps.length * 2)
      { exec0 with
          status := WorkflowStatus.running,
          start_time := some 0,
          step_executions := wf.steps.map (fun s =>
            { step_id := s.step_id, execution_id := exec0.execution_id }),
          context := ctxUpdate exec0.context exec0.input_data }
      { clock := 1, calls := [], sleeps := [],
        events := [TraceEvent.checkpointCreated CheckpointType.workflow_start Option.none] }
      []).1.status == WorkflowStatus.running with
  | false =>
      rw [hfin] at hc
      simp only [Bool.false_eq_true, if_false] at hc
      rcases rStat with h | h
      · rw [hc] at h
        simp at h
      · rw [hc] at h
        simp at h
  | true =>
      have hrun : (runLoop oracle wf (wf.steps.length * 2)
          { exec0 with
              status := WorkflowStatus.running,
              start_time := some 0,
              step_executions := wf.steps.map (fun s =>
                { step_id := s.step_id, execution_id := exec0.execution_id }),
              context := ctxUpdate exec0.context exec0.input_data }
          { clock := 1, calls := [], sleeps := [],
            events := [TraceEvent.checkpointCreated CheckpointType.workflow_start
              Option.none] }
          []).1.status = WorkflowStatus.running := by simpa using hfin
      simp only [eq_self_iff_true, if_true]
      intro se hse
      by_cases hzero : wf.steps.length = 0
      · exfalso
        have hids := rInv.ids_eq
        have hempty : stepIds wf = [] := by
          have : wf.steps = [] := List.length_eq_zero.mp hzero
          simp [stepIds, this]
        rw [hempty] at hids
        have hmem : se.step_id ∈ execIds (runLoop oracle wf (wf.steps.length * 2)
            { exec0 with
                status := WorkflowStatus.running,
                start_time := some 0,
                step_executions := wf.steps.map (fun s =>
                  { step_id := s.step_id, execution_id := exec0.execution_id }),
                context := ctxUpdate exec0.context exec0.input_data }
            { clock := 1, calls := [], sleeps := [],
              events := [TraceEvent.checkpointCreated CheckpointType.workflow_start
                Option.none] }
            []).1 := List.mem_map_of_mem StepExecution.step_id hse
        rw [hids] at hmem
        exact absurd hmem (List.not_mem_nil _)
      · have hfuel : (stepIds wf).dedup.length < wf.steps.length * 2 + 0 := by
          have h1 : (stepIds wf).dedup.length ≤ (stepIds wf).length :=
            List.Sublist.length_le (List.dedup_sublist _)
          have h2 : (stepIds wf).length = wf.steps.length := List.length_map _ _
          omega
        have hcov := rLen (by rw [hrun]; intro hx; exact WorkflowStatus.noConfusion hx) hfuel
        have hle := nodup_subset_length_le rInv.nodup rInv.sub
        have hlenstep : (stepIds wf).length = wf.steps.length := List.length_map _ _
        have hdedup : (stepIds wf).dedup.length = (stepIds wf).length := by
          have h1 : (stepIds wf).dedup.length ≤ (stepIds wf).length :=
            List.Sublist.length_le (List.dedup_sublist _)
          omega
        have hnodupIds : (stepIds wf).Nodup := nodup_of_dedup_length hdedup
        have hall := mem_of_nodup_subset_length rInv.nodup rInv.sub (by omega)
        have hide := rInv.ids_eq
        unfold execIds at hide
        have hmemid : se.step_id ∈ stepIds wf := by
          have h := List.mem_map_of_mem StepExecution.step_id hse
          rw [hide] at h
          exact h
        obtain ⟨sex, hfound, hterm⟩ := rInv.term se.step_id (hall se.step_id hmemid)
        have hself := getStepExecution_mem_of_nodup _ (by rw [hide]; exact hnodupIds)
          se hse
        rw [hself] at hfound
        injection hfound with hfound
        rw [← hfound] at hterm
        exact hterm

/-- C2: in any single `execute_workflow` run, whenever a step is about to
be set RUNNING (a `runAttempt` trace event), every id in that step's
`depends_on` already has a terminal status — COMPLETED, FAILED and SKIPPED
all count — in the statuses recorded at that moment. -/
theorem C2_no_running_before_deps_terminal (oracle : AgentOracle)
    (wf : WorkflowDefinition) (exec0 : WorkflowExecution) :
    ∀ ev ∈ (executeWorkflow oracle wf exec0).2.events,
      ∀ step sts, ev = TraceEvent.runAttempt step sts →
        ∀ dep ∈ step.depends_on,
          ∃ s, assocGet sts dep = some s ∧ isTerminal s = true := by
  have hsteps : ∀ s ∈ wf.steps, s.step_id ∈ stepIds wf :=
    fun s hs => List.mem_map_of_mem WorkflowStep.step_id hs
  obtain ⟨-, -, rEv, -⟩ := runLoop_spec oracle wf hsteps
    (wf.steps.length * 2)
    { exec0 with
        status := WorkflowStatus.running,
        start_time := some 0,
        step_executions := wf.steps.map (fun s =>
          { step_id := s.step_id, execution_id := exec0.execution_id }),
        context := ctxUpdate exec0.context exec0.input_data }
    { clock := 1, calls := [], sleeps := [],
      events := [TraceEvent.checkpointCreated CheckpointType.workflow_start Option.none] }
    [] (initial_LoopInv wf exec0)
  rw [executeWorkflow_runLoop]
  dsimp only
  intro ev hev step sts hevEq dep hdep
  rcases rEv ev hev with h | h
  · simp only [List.mem_singleton] at h
    rw [hevEq] at h
    exact TraceEvent.noConfusion h
  · rw [hevEq] at h
    exact h dep hdep

/-- Witness for C2: in the successful run of the chain `A ← B`, the
`runAttempt` event for `B` records `A` as COMPLETED (a terminal status). -/
theorem C2_witness :
    ∃ s, assocGet [("A", StepStatus.completed), ("B", StepStatus.pending)] "A" = some s ∧
      isTerminal s = true :=
  C2_no_running_before_deps_terminal alwaysOkOracle wfChain runExec
    (TraceEvent.runAttempt
      { step_id := "B", name := "B", depends_on := ["A"] }
      [("A", StepStatus.completed), ("B", StepStatus.pending)])
    (by decide) _ _ rfl "A" (by decide)

/-- Witness for C10: the chain run finalizes COMPLETED, and its step `A`
execution (a member of the final step-execution list) is terminal. -/
theorem C10_witness :
    isTerminal (StepExecution.status
      { step_id := "A", execution_id := "e1", status := StepStatus.completed,
        start_time := some 1, end_time := some 2, input_data := some [],
        output_data := some [("r", Value.int 1)], error_message := Option.none,
        agent_id := some "agent-1", retry_attempt := 0 }) = true :=
  C10_completed_implies_terminal alwaysOkOracle wfChain runExec (by decide)
    { step_id := "A", execution_id := "e1", status := StepStatus.completed,
      start_time := some 1, end_time := some 2, input_data := some [],
      output_data := some [("r", Value.int 1)], error_message := Option.none,
      agent_id := some "agent-1", retry_attempt := 0 }
    (by decide)

/-- C8: two mutually dependent steps leave the workflow FAILED with the
circular-dependency message, both steps PENDING, no step ever attempted
(no `runAttempt` event, no agent call); and in general a scan iteration
that terminalizes no step while the workflow has not failed ends the run
FAILED with that message. -/
theorem C8_circular_dependency :
    ((executeWorkflow alwaysFailOracle wfCycle runExec).1.status = WorkflowStatus.failed ∧
     (executeWorkflow alwaysFailOracle wfCycle runExec).1.error_message =
       some "Circular dependency detected in workflow" ∧
     (executeWorkflow alwaysFailOracle wfCycle runExec).1.step_executions.map
       StepExecution.status = [StepStatus.pending, StepStatus.pending] ∧
     (executeWorkflow alwaysFailOracle wfCycle runExec).2.events =
       [TraceEvent.checkpointCreated CheckpointType.workflow_start Option.none] ∧
     (executeWorkflow alwaysFailOracle wfCycle runExec).2.calls = []) ∧
    (∀ (oracle : AgentOracle) (wf : WorkflowDefinition) (exec : WorkflowExecution)
       (st : EngineState) (completed : List String) (fuel : ℕ),
       completed.length < wf.steps.length →
       (scanPass oracle wf.steps exec st completed false).progress = false →
       ((scanPass oracle wf.steps exec st completed false).exec.status ==
         WorkflowStatus.failed) = false →
       runLoop oracle wf (fuel + 1) exec st completed =
         ({ (scanPass oracle wf.steps exec st completed false).exec with
             status := WorkflowStatus.failed,
             error_message := some "Circular dependency detected in workflow" },
           (scanPass oracle wf.steps exec st completed false).st,
           (scanPass oracle wf.steps exec st completed false).completed)) := by
  constructor
  · exact ⟨by decide, by decide, by decide, by decide, by decide⟩
  · intro oracle wf exec st completed fuel hlen hprog hstat
    simp only [runLoop, if_pos hlen, hstat, Bool.false_eq_true, if_false, hprog]

/-- Witness for C8's general clause: one no-progress iteration on the
cyclic workflow fails it with the circular-dependency message. -/
theorem C8_witness :
    runLoop alwaysFailOracle wfCycle 1
      { runExec with status := WorkflowStatus.running } {} [] =
      ({ (scanPass alwaysFailOracle wfCycle.steps
            { runExec with status := WorkflowStatus.running } {} [] false).exec with
          status := WorkflowStatus.failed,
          error_message := some "Circular dependency detected in workflow" },
        (scanPass alwaysFailOracle wfCycle.steps
          { runExec with status := WorkflowStatus.running } {} [] false).st,
        (scanPass alwaysFailOracle wfCycle.steps
          { runExec with status := WorkflowStatus.running } {} [] false).completed) :=
  C8_circular_dependency.2 alwaysFailOracle wfCycle
    { runExec with status := WorkflowStatus.running } {} [] 0
    (by decide) (by decide) (by decide)
